import Mathlib

/-!
Verification development for the ATS Schema Evolution Engine
(`tools/schema/diff_engine_v2.py`, `tools/schema/schema_version_manager.py`,
`tools/schema/schema_impact_inspector.py`, `tools/schema/schema_cli.py`).

The Python sources are shallowly embedded: dictionaries become structures or
association lists (Python dicts preserve insertion order and have unique keys),
Python `sorted(...)` over sets of string keys becomes an insertion sort over
deduplicated key lists, and exceptions become `Except`.  File writes performed
by the version manager and the CLI pipeline are recorded in an explicit write
log instead of touching a file system.

String caveats: Python iterates the set literals `METADATA_KEYS` and
`{"description", "note", "label"}` in unspecified order; we fix a definite
order, and no theorem below depends on the relative order of the records these
loops emit.  `str.lower`/`str.upper` are modelled on ASCII via
`Char.toLower`/`Char.toUpper`.
-/

deriving instance DecidableEq for Except

namespace ATS

/-! ### Character-list string helpers (kernel-reducible replacements for
Python `sorted`, `split`, `strip`, `in`, `lower`, `upper`, `int(...)`) -/

/-- Lexicographic `≤` on char lists, mirroring Python string comparison by
code points (used only through `sortStrs`, which models `sorted(...)`). -/
def charsLe : List Char → List Char → Bool
  | [], _ => true
  | _ :: _, [] => false
  | a :: as, b :: bs => if a < b then true else if a = b then charsLe as bs else false

def strLeB (a b : String) : Bool := charsLe a.data b.data

def insertStr (x : String) : List String → List String
  | [] => [x]
  | y :: ys => if strLeB x y then x :: y :: ys else y :: insertStr x ys

/-- Sort a list of strings; models Python `sorted(...)` on string keys. -/
def sortStrs (l : List String) : List String := l.foldr insertStr []

/-- Substring of `p` before the first occurrence of `c` (all of `p` when `c`
is absent); models `p.split(c, 1)[0]`. -/
def takeUntilChar (c : Char) : List Char → List Char
  | [] => []
  | x :: xs => if x = c then [] else x :: takeUntilChar c xs

def containsChar (c : Char) (l : List Char) : Bool := l.any (· = c)

/-- Split a char list on a separator char; models Python `s.split(sep)` for a
single-character separator (`"".split "."` gives `[""]`, as in Python). -/
def splitOnCharL (c : Char) : List Char → List (List Char)
  | [] => [[]]
  | x :: xs =>
    if x = c then [] :: splitOnCharL c xs
    else
      match splitOnCharL c xs with
      | r :: rs => (x :: r) :: rs
      | [] => [[x]]

def splitOnChar (c : Char) (s : String) : List String :=
  (splitOnCharL c s.data).map String.mk

/-- Python `str.strip()` whitespace set (ASCII portion). -/
def isPyWs (c : Char) : Bool :=
  c = ' ' ∨ c = '\t' ∨ c = '\n' ∨ c = '\r' ∨ c = Char.ofNat 11 ∨ c = Char.ofNat 12

/-- Models Python `str.strip()` (ASCII whitespace). -/
def pyStrip (s : String) : String :=
  ⟨((s.data.dropWhile isPyWs).reverse.dropWhile isPyWs).reverse⟩

def lowerStr (s : String) : String := ⟨s.data.map Char.toLower⟩

def upperStr (s : String) : String := ⟨s.data.map Char.toUpper⟩

/-- Digit run accepted by Python `int(...)` after the first digit: decimal
digits with single underscores allowed between digits. -/
def pyDigitsAux : Nat → List Char → Option Nat
  | acc, [] => some acc
  | acc, c :: rest =>
    if c.isDigit then pyDigitsAux (10 * acc + (c.toNat - 48)) rest
    else if c = '_' then
      match rest with
      | d :: rest2 => if d.isDigit then pyDigitsAux (10 * acc + (d.toNat - 48)) rest2 else none
      | [] => none
    else none

/-- Nonempty digit run (first char must be a digit). -/
def pyDigits : List Char → Option Nat
  | [] => none
  | c :: rest => if c.isDigit then pyDigitsAux (c.toNat - 48) rest else none

/-- Models Python `int(s)` on strings: optional surrounding whitespace,
optional sign, decimal digits with underscore separators; `none` models the
`ValueError` raised on anything else. -/
def pyInt (s : String) : Option Int :=
  match (pyStrip s).data with
  | '+' :: rest => (pyDigits rest).map (fun n => (n : Int))
  | '-' :: rest => (pyDigits rest).map (fun n => -(n : Int))
  | cs => (pyDigits cs).map (fun n => (n : Int))

/-- Decimal rendering of a `Nat` (kernel-reducible stand-in for `str(n)`). -/
def natDigitsAux : Nat → Nat → List Char
  | 0, _ => []
  | fuel + 1, n =>
    if n < 10 then [Char.ofNat (48 + n)]
    else natDigitsAux fuel (n / 10) ++ [Char.ofNat (48 + n % 10)]

def natToStr (n : Nat) : String := ⟨natDigitsAux (n + 1) n⟩

def intToStr (n : Int) : String :=
  if n < 0 then "-" ++ natToStr n.natAbs else natToStr n.natAbs

/-! ### Diff engine data model (`tools/schema/diff_engine_v2.py`) -/

/-- Embeds `ChangeLevel`: overall impact level of a schema change. -/
inductive ChangeLevel where
  | PATCH
  | MINOR
  | MAJOR
  | BREAKING
deriving DecidableEq, Repr

/-- The `order` dict inside `ChangeLevel.max_level`. -/
def levelOrd : ChangeLevel → Nat
  | .PATCH => 0
  | .MINOR => 1
  | .MAJOR => 2
  | .BREAKING => 3

/-- Embeds `ChangeLevel.max_level`: Python `max(levels, key=...)` keeps the first
maximal element; the empty list yields `PATCH`. -/
def maxLevel : List ChangeLevel → ChangeLevel
  | [] => .PATCH
  | l :: ls => ls.foldl (fun acc x => if levelOrd acc < levelOrd x then x else acc) l

/-- Embeds `ChangeType`: type of schema change detected. -/
inductive ChangeType where
  | SCHEMA_METADATA_CHANGED
  | SHEET_ADDED
  | SHEET_REMOVED
  | ROW_START_CHANGED
  | COLUMN_ADDED
  | COLUMN_REMOVED
  | COLUMN_TYPE_CHANGED
  | COLUMN_POSITION_CHANGED
  | COLUMN_META_CHANGED
  | BLOCKS_CHANGED
  | UNKNOWN
deriving DecidableEq, Repr

/-- A column definition dict: the keys the diff engine reads (`python_key`,
`name`, `col`, `type`) plus the secondary-metadata keys (`description`,
`note`, `label`).  Absent keys are `none`. -/
structure ColumnDef where
  python_key : Option String := none
  name : Option String := none
  col : Option String := none
  type : Option String := none
  description : Option String := none
  note : Option String := none
  label : Option String := none
deriving DecidableEq, Repr

/-- A sheet's `blocks` value: block name to (field name to cell address). -/
def BlocksVal := List (String × List (String × String))
deriving DecidableEq, Repr

/-- A sheet definition dict: the keys the diff engine reads.  An absent
`columns` key behaves as the empty list (`sheet.get("columns", [])`). -/
structure SheetDef where
  row_start : Option Int := none
  columns : List ColumnDef := []
  blocks : Option BlocksVal := none
deriving DecidableEq, Repr

/-- A schema dict in the canonical `"sheets"`-keyed layout used by the CLI,
the tests and the persisted documents: the four `METADATA_KEYS` top-level
fields plus the sheet map (insertion-ordered, unique keys). -/
structure Schema where
  version : Option String := none
  project : Option String := none
  schemaTag : Option String := none
  meta : Option String := none
  sheets : List (String × SheetDef) := []
deriving DecidableEq, Repr

/-- Loosely-typed `old_value` / `new_value` payload of a change record. -/
inductive PyVal where
  | none
  | int (n : Int)
  | str (s : String)
  | optStr (o : Option String)
  | optInt (o : Option Int)
  | sheet (sh : SheetDef)
  | column (c : ColumnDef)
  | blocks (b : Option BlocksVal)
deriving DecidableEq, Repr

/-- Abstract stand-in for Python `repr(value)` inside report messages (the
exact text is irrelevant to every claim). -/
def reprVal : PyVal → String
  | .none => "None"
  | .int n => intToStr n
  | .str s => "'" ++ s ++ "'"
  | .optStr Option.none => "None"
  | .optStr (some s) => "'" ++ s ++ "'"
  | .optInt Option.none => "None"
  | .optInt (some n) => intToStr n
  | .sheet _ => "<sheet>"
  | .column _ => "<column>"
  | .blocks _ => "<blocks>"

/-- Embeds `SchemaChange`: a single change between old and new schema. -/
structure SchemaChange where
  change_type : ChangeType
  level : ChangeLevel
  path : String
  message : String
  old_value : PyVal := .none
  new_value : PyVal := .none
deriving DecidableEq, Repr

/-- Embeds `SchemaDiffResult.level`: overall impact level derived from all changes. -/
def resultLevel (changes : List SchemaChange) : ChangeLevel :=
  if changes = [] then .PATCH else maxLevel (changes.map (·.level))

/-! ### The diff engine (`SchemaDiffEngine`) -/

/-- Python truthiness of an optional string value (absent or empty is falsy). -/
def optTruthy : Option String → Bool
  | some s => decide (s ≠ "")
  | Option.none => false

/-- Stand-in for the `repr(col_def)` fallback of `_build_column_key`
(reachable only when `python_key`, `name` and `col` are all falsy). -/
def reprColumn (c : ColumnDef) : String :=
  "<col " ++ (c.type.getD "") ++ (c.description.getD "") ++ (c.note.getD "")
    ++ (c.label.getD "") ++ ">"

/-- Embeds `_build_column_key`: stable identifier for a column, priority
`python_key`, then `name`, then `col`, then `repr`. -/
def buildColumnKey (c : ColumnDef) : String :=
  if optTruthy c.python_key then c.python_key.getD ""
  else if optTruthy c.name then c.name.getD ""
  else if optTruthy c.col then c.col.getD ""
  else reprColumn c

/-- Dict insertion with Python semantics: overwriting an existing key keeps
its position, a new key is appended. -/
def insertIdx (m : List (String × Nat × ColumnDef)) (k : String) (v : Nat × ColumnDef) :
    List (String × Nat × ColumnDef) :=
  if (m.find? (fun p => decide (p.1 = k))).isSome then
    m.map (fun p => if p.1 = k then (k, v) else p)
  else m ++ [(k, v)]

/-- Embeds `_index_columns`: column key to (position index, column def); a
duplicated key keeps the last (index, def) pair, as a Python dict does. -/
def indexCols (cols : List ColumnDef) : List (String × Nat × ColumnDef) :=
  cols.enum.foldl (fun m p => insertIdx m (buildColumnKey p.2) (p.1, p.2)) []

/-- First-match association lookup (Python dict subscript; keys are unique). -/
def alookup {β : Type} (m : List (String × β)) (k : String) : Option β :=
  (m.find? (fun p => decide (p.1 = k))).map (·.2)

/-- The `meta_keys = {"description", "note", "label"}` loop of
`_diff_columns`, as (key name, accessor) pairs in a fixed order. -/
def metaFields : List (String × (ColumnDef → Option String)) :=
  [("description", (·.description)), ("note", (·.note)), ("label", (·.label))]

/-- The `COLUMN_POSITION_CHANGED` record `_diff_columns` emits. -/
def mkColumnPositionChanged (sheetPath k : String) (oldPos newPos : Nat) : SchemaChange :=
  { change_type := .COLUMN_POSITION_CHANGED, level := .MINOR,
    path := sheetPath ++ ".columns[" ++ k ++ "]",
    message := "Column '" ++ k ++ "' position changed in sheet '" ++ sheetPath
      ++ "' from index " ++ natToStr oldPos ++ " to " ++ natToStr newPos,
    old_value := .int oldPos, new_value := .int newPos }

/-- The `COLUMN_TYPE_CHANGED` record `_diff_columns` emits. -/
def mkColumnTypeChanged (sheetPath k : String) (oldType newType : Option String) : SchemaChange :=
  { change_type := .COLUMN_TYPE_CHANGED, level := .MAJOR,
    path := sheetPath ++ ".columns[" ++ k ++ "].type",
    message := "Column '" ++ k ++ "' type changed in sheet '" ++ sheetPath
      ++ "' from " ++ reprVal (.optStr oldType) ++ " to " ++ reprVal (.optStr newType),
    old_value := .optStr oldType, new_value := .optStr newType }

/-- Embeds `_diff_columns`: removed (MAJOR), added (MINOR), then per common column
position (MINOR), type (MAJOR) and secondary-metadata (PATCH) changes. -/
def diffColumns (sheetPath : String) (oldCols newCols : List ColumnDef) :
    List SchemaChange :=
  let oldIdx := indexCols oldCols
  let newIdx := indexCols newCols
  let oldKeys := oldIdx.map (·.1)
  let newKeys := newIdx.map (·.1)
  let removed := (sortStrs (oldKeys.filter (fun k => decide (k ∉ newKeys)))).flatMap
    (fun k =>
      match alookup oldIdx k with
      | some (_, oldCol) =>
        [{ change_type := .COLUMN_REMOVED, level := .MAJOR,
           path := sheetPath ++ ".columns[" ++ k ++ "]",
           message := "Column '" ++ k ++ "' removed from sheet '" ++ sheetPath ++ "'",
           old_value := .column oldCol, new_value := .none }]
      | Option.none => [])
  let added := (sortStrs (newKeys.filter (fun k => decide (k ∉ oldKeys)))).flatMap
    (fun k =>
      match alookup newIdx k with
      | some (_, newCol) =>
        [{ change_type := .COLUMN_ADDED, level := .MINOR,
           path := sheetPath ++ ".columns[" ++ k ++ "]",
           message := "Column '" ++ k ++ "' added to sheet '" ++ sheetPath ++ "'",
           old_value := .none, new_value := .column newCol }]
      | Option.none => [])
  let common := (sortStrs (oldKeys.filter (fun k => decide (k ∈ newKeys)))).flatMap
    (fun k =>
      match alookup oldIdx k, alookup newIdx k with
      | some (oldPos, oldCol), some (newPos, newCol) =>
        let basePath := sheetPath ++ ".columns[" ++ k ++ "]"
        (if oldPos ≠ newPos then [mkColumnPositionChanged sheetPath k oldPos newPos]
        else []) ++
        (if oldCol.type ≠ newCol.type then
          [mkColumnTypeChanged sheetPath k oldCol.type newCol.type]
        else []) ++
        metaFields.flatMap (fun mf =>
          let oldMeta := mf.2 oldCol
          let newMeta := mf.2 newCol
          if oldMeta ≠ newMeta then
            [{ change_type := .COLUMN_META_CHANGED, level := .PATCH,
               path := basePath ++ "." ++ mf.1,
               message := "Column '" ++ k ++ "' meta field '" ++ mf.1
                 ++ "' changed in sheet '" ++ sheetPath ++ "' from "
                 ++ reprVal (.optStr oldMeta) ++ " to " ++ reprVal (.optStr newMeta),
               old_value := .optStr oldMeta, new_value := .optStr newMeta }]
          else [])
      | _, _ => [])
  removed ++ added ++ common

/-- Embeds `_diff_row_start`: a changed row start is MAJOR. -/
def diffRowStart (sheetPath : String) (oldRow newRow : Option Int) :
    List SchemaChange :=
  if oldRow ≠ newRow then
    [{ change_type := .ROW_START_CHANGED, level := .MAJOR,
       path := sheetPath ++ ".row_start",
       message := "Row start changed in sheet '" ++ sheetPath ++ "' from "
         ++ reprVal (.optInt oldRow) ++ " to " ++ reprVal (.optInt newRow),
       old_value := .optInt oldRow, new_value := .optInt newRow }]
  else []

/-- Embeds `_diff_blocks`: any difference in the block mapping yields one MINOR
record for the whole sheet's block set. -/
def diffBlocks (sheetPath : String) (oldBlocks newBlocks : Option BlocksVal) :
    List SchemaChange :=
  match oldBlocks, newBlocks with
  | Option.none, Option.none => []
  | ob, nb =>
    if ob ≠ nb then
      [{ change_type := .BLOCKS_CHANGED, level := .MINOR,
         path := sheetPath ++ ".blocks",
         message := "Blocks changed in sheet '" ++ sheetPath ++ "'",
         old_value := .blocks ob, new_value := .blocks nb }]
    else []

/-- The `SHEET_REMOVED` record `_diff_sheets` emits. -/
def mkSheetRemovedRec (s : String) (sh : SheetDef) : SchemaChange :=
  { change_type := .SHEET_REMOVED, level := .MAJOR, path := s,
    message := "Sheet '" ++ s ++ "' was removed",
    old_value := .sheet sh, new_value := .none }

/-- The `SHEET_ADDED` record `_diff_sheets` emits. -/
def mkSheetAddedRec (s : String) (sh : SheetDef) : SchemaChange :=
  { change_type := .SHEET_ADDED, level := .MINOR, path := s,
    message := "Sheet '" ++ s ++ "' was added",
    old_value := .none, new_value := .sheet sh }

/-- Embeds `_diff_sheets`: removed sheets (MAJOR), added sheets (MINOR), then the
row-start / column / block diffs of each common sheet, each group iterated
in sorted name order. -/
def diffSheets (old new : List (String × SheetDef)) : List SchemaChange :=
  let oldNames := old.map (·.1)
  let newNames := new.map (·.1)
  let removed := (sortStrs (oldNames.dedup.filter (fun k => decide (k ∉ newNames)))).flatMap
    (fun s =>
      match alookup old s with
      | some sh => [mkSheetRemovedRec s sh]
      | Option.none => [])
  let added := (sortStrs (newNames.dedup.filter (fun k => decide (k ∉ oldNames)))).flatMap
    (fun s =>
      match alookup new s with
      | some sh => [mkSheetAddedRec s sh]
      | Option.none => [])
  let common := (sortStrs (oldNames.dedup.filter (fun k => decide (k ∈ newNames)))).flatMap
    (fun s =>
      match alookup old s, alookup new s with
      | some osh, some nsh =>
        diffRowStart s osh.row_start nsh.row_start
          ++ diffColumns s osh.columns nsh.columns
          ++ diffBlocks s osh.blocks nsh.blocks
      | _, _ => [])
  removed ++ added ++ common

/-- The `METADATA_KEYS` top-level fields as (key, accessor) pairs (the Python
set `{"version", "project", "$schema", "meta"}` iterates in unspecified
order; no claim depends on the order of the records this loop emits). -/
def metadataFields : List (String × (Schema → Option String)) :=
  [("version", (·.version)), ("project", (·.project)),
   ("$schema", (·.schemaTag)), ("meta", (·.meta))]

/-- Embeds `_diff_metadata`: any differing top-level metadata field yields one PATCH
record. -/
def diffMetadata (old new : Schema) : List SchemaChange :=
  metadataFields.flatMap (fun mf =>
    let oldVal := mf.2 old
    let newVal := mf.2 new
    if oldVal ≠ newVal then
      [{ change_type := .SCHEMA_METADATA_CHANGED, level := .PATCH, path := mf.1,
         message := "Metadata field '" ++ mf.1 ++ "' changed from "
           ++ reprVal (.optStr oldVal) ++ " to " ++ reprVal (.optStr newVal),
         old_value := .optStr oldVal, new_value := .optStr newVal }]
    else [])

/-- Embeds `SchemaDiffEngine.diff`: metadata diff then sheet diffs (`_extract_sheet_map`
on the canonical `"sheets"`-keyed layout returns the sheet map itself). -/
def schemaDiff (old new : Schema) : List SchemaChange :=
  diffMetadata old new ++ diffSheets old.sheets new.sheets

/-! ### Version manager (`tools/schema/schema_version_manager.py`) -/

/-- Embeds `SemanticVersion`: simple semantic version `major.minor.patch` (components
come from Python `int(...)`, which also accepts negative values). -/
structure SemanticVersion where
  major : Int
  minor : Int
  patch : Int
deriving DecidableEq, Repr

/-- Embeds `SemanticVersion.parse`: strip, split on `"."`, require exactly three
components, convert each with `int(...)`; any failure raises
`SemanticVersionError` (modelled as `Except.error`). -/
def parseSemVer (s : String) : Except String SemanticVersion :=
  let parts := splitOnChar '.' (pyStrip s)
  if parts.length = 3 then
    match pyInt (parts.getD 0 ""), pyInt (parts.getD 1 ""), pyInt (parts.getD 2 "") with
    | some a, some b, some c => .ok ⟨a, b, c⟩
    | _, _, _ => .error ("Invalid semantic version string: " ++ s)
  else .error ("Invalid semantic version string: " ++ s)

/-- Embeds `SemanticVersion.bump`. -/
def bumpVersion (v : SemanticVersion) (level : ChangeLevel) : SemanticVersion :=
  match level with
  | .PATCH => ⟨v.major, v.minor, v.patch + 1⟩
  | .MINOR => ⟨v.major, v.minor + 1, 0⟩
  | .MAJOR => ⟨v.major + 1, 0, 0⟩
  | .BREAKING => ⟨v.major + 1, 0, 0⟩

/-- Embeds `SemanticVersion.__str__`. -/
def semVerStr (v : SemanticVersion) : String :=
  intToStr v.major ++ "." ++ intToStr v.minor ++ "." ++ intToStr v.patch

/-- Embeds `VersionDecision`. -/
inductive VersionDecision where
  | NO_CHANGE
  | BUMP
deriving DecidableEq, Repr

/-- Embeds `VersioningResult` (the three path fields hold the relative paths the
manager reports; `none` when nothing was written). -/
structure VersioningResult where
  decision : VersionDecision
  old_version : Option String
  new_version : Option String
  diff_level : ChangeLevel
  schema_path : Option String := none
  history_path : Option String := none
  report_path : Option String := none
deriving DecidableEq, Repr

/-- One file write performed by the version manager, recorded instead of
touching a file system (the rendered markdown text is not modelled; the
report event carries the data it is rendered from). -/
inductive WriteEvent where
  | history (s : Schema) (version : String) (timestamp : String)
  | current (s : Schema)
  | diffReport (oldVersion newVersion : String) (changes : List SchemaChange)
  | impactReportFile (timestamp : String)
deriving DecidableEq, Repr

/-- Embeds `_resolve_current_version`: explicit argument if truthy, else
`schema["version"]` if a string, else `"0.0.0"`. -/
def resolveCurrentVersion (schema : Schema) (explicit : Option String) : String :=
  if optTruthy explicit then explicit.getD ""
  else match schema.version with
    | some v => v
    | Option.none => "0.0.0"

/-- Relative path of the canonical schema file. -/
def canonicalSchemaPath : String := "schemas/auto_trading_system.schema.json"

/-- Relative path of a history snapshot. -/
def historyFilePath (timestamp version : String) : String :=
  "schemas/history/" ++ timestamp ++ "_v" ++ version ++ ".schema.json"

/-- Relative path of a diff summary report. -/
def diffReportPath (timestamp : String) : String :=
  "reports/schema/diff_summary_" ++ timestamp ++ ".md"

/-- Embeds `SchemaVersionManager.apply_versioning`: empty diff reports no change and
writes nothing; otherwise resolve and parse the old version, bump it by the
diff level, attach the new version string to a copy of the schema dict, and
write history snapshot, canonical schema and diff summary in that order.
`datetime.utcnow()` is passed in as the `timestamp` argument. -/
def applyVersioning (currentSchema : Schema) (changes : List SchemaChange)
    (currentVersionStr : Option String) (timestamp : String) :
    Except String (VersioningResult × List WriteEvent) :=
  if changes = [] then
    .ok ({ decision := .NO_CHANGE, old_version := currentVersionStr,
           new_version := currentVersionStr, diff_level := .PATCH }, [])
  else
    let oldVersionStr := resolveCurrentVersion currentSchema currentVersionStr
    match parseSemVer oldVersionStr with
    | .error e => .error e
    | .ok oldSemver =>
      let newSemver := bumpVersion oldSemver (resultLevel changes)
      let newVersionStr := semVerStr newSemver
      let schemaWithVersion := { currentSchema with version := some newVersionStr }
      .ok ({ decision := .BUMP, old_version := some oldVersionStr,
             new_version := some newVersionStr, diff_level := resultLevel changes,
             schema_path := some canonicalSchemaPath,
             history_path := some (historyFilePath timestamp newVersionStr),
             report_path := some (diffReportPath timestamp) },
           [.history schemaWithVersion newVersionStr timestamp,
            .current schemaWithVersion,
            .diffReport oldVersionStr newVersionStr changes])

/-! ### Impact inspector (`tools/schema/schema_impact_inspector.py`)

`pathlib.Path` values are modelled as lists of path segments; the inspector
prefixes every relative path with the same `project_root`, carried here as a
`root` parameter. -/

/-- Embeds `ImpactCategory`. -/
inductive ImpactCategory where
  | REPOSITORY
  | ENGINE
  | SHEETS_ADAPTER
  | DASHBOARD
  | RISK
  | STRATEGY
  | OTHER
deriving DecidableEq, Repr

/-- A file path as a list of segments. -/
def SegPath := List String
deriving DecidableEq, Repr

/-- Embeds `ImpactTarget`. -/
structure ImpactTarget where
  category : ImpactCategory
  file_path : SegPath
  reason : String
  related_changes : List SchemaChange := []
deriving DecidableEq, Repr

/-- Embeds `_extract_sheet_name_from_path`: substring before the first `"."`, else
before the first `"["`, else the whole path. -/
def extractSheetName (p : String) : String :=
  if containsChar '.' p.data then ⟨takeUntilChar '.' p.data⟩
  else if containsChar '[' p.data then ⟨takeUntilChar '[' p.data⟩
  else p

/-- Embeds `_group_changes_by_sheet`: `grouped.setdefault(sheet, []).append(change)`
over an insertion-ordered dict. -/
def groupBySheet (changes : List SchemaChange) : List (String × List SchemaChange) :=
  changes.foldl (fun acc c =>
    let s := extractSheetName c.path
    if acc.any (fun p => decide (p.1 = s)) then
      acc.map (fun p => if p.1 = s then (p.1, p.2 ++ [c]) else p)
    else acc ++ [(s, [c])]) []

/-- Embeds `_sheet_to_categories`: sheet identity (upper-cased name) plus change
types to impact categories.  The Python function builds a `set`; here it is a
duplicate-free list in a fixed order (no claim depends on category order). -/
def sheetToCategories (sheetName : String) (changes : List SchemaChange) :
    List ImpactCategory :=
  let upper := upperStr sheetName
  let base : List ImpactCategory :=
    if upper = "CONFIG" then [.ENGINE, .RISK, .STRATEGY]
    else if upper = "DT_REPORT" ∨ upper = "T_LEDGER" then [.REPOSITORY, .ENGINE, .RISK]
    else if upper = "HISTORY" then [.REPOSITORY, .RISK, .DASHBOARD]
    else if upper = "POSITION" then [.REPOSITORY, .ENGINE, .RISK, .DASHBOARD]
    else if upper = "STRATEGY_PERFORMANCE" ∨ upper = "STRATEGY_STATS" then
      [.REPOSITORY, .STRATEGY, .DASHBOARD]
    else if upper = "R_DASH" ∨ upper = "RISK_MONITOR" ∨ upper = "RISK_DASHBOARD" then
      [.RISK, .DASHBOARD]
    else
      [.SHEETS_ADAPTER] ++
        (if changes.any (fun ch => decide (ch.change_type = .BLOCKS_CHANGED)) then
          [.DASHBOARD] else [])
  base ++
    (if changes.all (fun ch => decide (ch.change_type = .SCHEMA_METADATA_CHANGED
        ∨ ch.change_type = .COLUMN_META_CHANGED)) then [.OTHER] else [])

/-- Embeds `_category_to_files`: map (sheet name, category) to relative file paths.
Each category's branch only appends paths no earlier branch produced, so the
final dedup pass of the Python function is the identity and is omitted. -/
def categoryToFiles (sheetName : String) (category : ImpactCategory) :
    List SegPath :=
  let lower := lowerStr sheetName
  (if category = .REPOSITORY then
    if lower = "dt_report" ∨ lower = "t_ledger" then
      [["src", "sheets", "dt_report_repository.py"]]
    else if lower = "position" then [["src", "sheets", "position_repository.py"]]
    else if lower = "history" then [["src", "sheets", "history_repository.py"]]
    else if lower = "strategy_performance" ∨ lower = "strategy_stats" then
      [["src", "sheets", "strategy_performance_repository.py"]]
    else [["src", "sheets", lower ++ "_repository.py"]]
  else []) ++
  (if category = .ENGINE then
    (if lower = "position" then [["src", "engine", "portfolio", "portfolio_engine.py"]]
     else []) ++
    (if lower = "dt_report" ∨ lower = "t_ledger" then
      [["src", "engine", "trading", "trading_engine.py"]]
     else []) ++
    [["src", "engine", "core", "schema_dependent_engine.py"]]
  else []) ++
  (if category = .SHEETS_ADAPTER then
    [["src", "sheets", "google_client.py"], ["src", "sheets", lower ++ "_adapter.py"]]
  else []) ++
  (if category = .RISK then
    [["src", "engine", "risk", "risk_engine.py"], ["src", "engine", "risk", "portfolio_risk.py"]]
  else []) ++
  (if category = .STRATEGY then [["src", "engine", "strategy", "strategy_engine.py"]]
  else []) ++
  (if category = .DASHBOARD then
    [["src", "reporting", "portfolio_dashboard_renderer.py"],
     ["src", "reporting", "risk_dashboard_renderer.py"]]
  else []) ++
  (if category = .OTHER then [["src", "core", "schema_aware_context.py"]] else [])

/-- Embeds `_build_reason` (the concrete text is irrelevant to every claim). -/
def buildReason (sheetName : String) (category : ImpactCategory)
    (changes : List SchemaChange) : String :=
  "Sheet '" ++ sheetName ++ "' changed with overall level "
    ++ (match maxLevel (changes.map (·.level)) with
        | .PATCH => "PATCH" | .MINOR => "MINOR" | .MAJOR => "MAJOR" | .BREAKING => "BREAKING")
    ++ ", which affects '"
    ++ (match category with
        | .REPOSITORY => "repository" | .ENGINE => "engine"
        | .SHEETS_ADAPTER => "sheets_adapter" | .DASHBOARD => "dashboard"
        | .RISK => "risk" | .STRATEGY => "strategy" | .OTHER => "other")
    ++ "' layer."

/-- Embeds `_infer_targets_for_sheet`: one target per (category, file path), each
carrying the sheet's change list. -/
def inferTargetsForSheet (root : List String) (sheetName : String)
    (changes : List SchemaChange) : List ImpactTarget :=
  (sheetToCategories sheetName changes).flatMap (fun category =>
    (categoryToFiles sheetName category).map (fun fp =>
      { category := category, file_path := root ++ fp,
        reason := buildReason sheetName category changes,
        related_changes := changes }))

/-- One step of the consolidation loop of `analyze`: on a key hit with equal
category the existing target absorbs the new target's changes; on a key hit
with a different category the dict assignment replaces the entry in place;
otherwise the entry is appended.  The map is keyed by `file_path`. -/
def consolidateStep (m : List ImpactTarget) (t : ImpactTarget) : List ImpactTarget :=
  match m.find? (fun e => decide (e.file_path = t.file_path)) with
  | some existing =>
    if existing.category = t.category then
      m.map (fun e =>
        if e.file_path = t.file_path then
          { existing with related_changes := existing.related_changes ++ t.related_changes }
        else e)
    else
      m.map (fun e => if e.file_path = t.file_path then t else e)
  | Option.none => m ++ [t]

/-- The target list `SchemaImpactInspector.analyze` produces (the values of
`targets_map` in insertion order). -/
def analyzeTargets (root : List String) (changes : List SchemaChange) :
    List ImpactTarget :=
  if changes = [] then []
  else
    (groupBySheet changes).foldl
      (fun m g => (inferTargetsForSheet root g.1 g.2).foldl consolidateStep m) []

/-- Embeds `ImpactReport` as produced by `analyze`. -/
structure ImpactReport where
  diff_level : ChangeLevel
  changes : List SchemaChange
  targets : List ImpactTarget
deriving DecidableEq, Repr

/-- Embeds `SchemaImpactInspector.analyze`. -/
def analyze (root : List String) (changes : List SchemaChange) : ImpactReport :=
  if changes = [] then { diff_level := .PATCH, changes := [], targets := [] }
  else { diff_level := resultLevel changes, changes := changes,
         targets := analyzeTargets root changes }

/-! ### Validator and CLI pipeline (`tools/schema/schema_cli.py`) -/

/-- Modelled from the spec: key synthesis of the Normalizer, needed because
`tools/schema/schema_generator.py`'s validator companion
`tools/schema/schema_validator.py` is absent from the sources.  Per spec
section 4.1, a missing programmatic key "is synthesized from its display name
(lower-case, non-alphanumeric runs collapsed to a single separator,
leading/trailing separators trimmed) or, if the name is also empty, from its
column letter". -/
def slugChars : Bool → List Char → List Char
  | _, [] => []
  | pendingSep, c :: cs =>
    if c.isAlphanum then
      (if pendingSep then ['_'] else []) ++ c.toLower :: slugChars false cs
    else slugChars true cs

def slugify (s : String) : String :=
  ⟨(slugChars false s.data).dropWhile (· = '_')⟩

/-- Modelled from the spec: the programmatic key a column resolves to —
its `python_key` when present and nonempty, else the slug of its display
name, else its column letter. -/
def resolveKey (c : ColumnDef) : String :=
  if optTruthy c.python_key then c.python_key.getD ""
  else
    let slug := slugify (c.name.getD "")
    if slug ≠ "" then slug else c.col.getD ""

/-- Modelled from the spec: `SchemaValidator.validate` of the missing
`tools/schema/schema_validator.py` — "Fails with a `ValidationError` when two
columns in the same sheet resolve to the same programmatic key" (spec
sections 4.1 and 7); on success it returns its input unchanged, as the test
`test_validator_ok` asserts. -/
def validateSchema (s : Schema) : Except String Schema :=
  match s.sheets.find? (fun p => decide (¬ (p.2.columns.map resolveKey).Nodup)) with
  | some p => .error ("Duplicate programmatic key in sheet '" ++ p.1 ++ "'")
  | Option.none => .ok s

/-- The empty base schema `run_schema_pipeline` uses when no previous schema
file exists. -/
def emptyBaseSchema : Schema := { version := some "0.0.0", sheets := [] }

/-- Embeds `run_schema_pipeline` from step 5 on, with the already generated new
schema as input (introspection and generation are external collaborators):
validate, load old schema (or the empty base), diff, apply versioning, then
analyze and write the impact report.  Returns the write log together with the
pipeline outcome; a raised exception leaves the log produced so far. -/
def runPipeline (oldSchema : Option Schema) (newSchema : Schema) (timestamp : String) :
    List WriteEvent × Except String VersioningResult :=
  match validateSchema newSchema with
  | .error e => ([], .error e)
  | .ok validated =>
    let old := oldSchema.getD emptyBaseSchema
    let diffResult := schemaDiff old validated
    match applyVersioning validated diffResult old.version timestamp with
    | .error e => ([], .error e)
    | .ok (res, writes) => (writes ++ [.impactReportFile timestamp], .ok res)

/-! ## Shared lemmas -/

theorem insertStr_perm (x : String) (l : List String) :
    List.Perm (insertStr x l) (x :: l) := by
  induction l with
  | nil => simp [insertStr]
  | cons y ys ih =>
    by_cases h : strLeB x y
    · simp [insertStr, h]
    · simp only [insertStr, h, Bool.false_eq_true, if_false]
      exact List.Perm.trans (List.Perm.cons y ih) (List.Perm.swap x y ys)

theorem sortStrs_perm (l : List String) : List.Perm (sortStrs l) l := by
  induction l with
  | nil => rfl
  | cons x xs ih =>
    exact List.Perm.trans (insertStr_perm x (sortStrs xs)) (List.Perm.cons x ih)

theorem mem_sortStrs {a : String} {l : List String} : a ∈ sortStrs l ↔ a ∈ l :=
  (sortStrs_perm l).mem_iff

/-- The total order PATCH < MINOR < MAJOR < BREAKING, via the `order` table. -/
def levelLe (a b : ChangeLevel) : Prop := levelOrd a ≤ levelOrd b

theorem foldMax_mem (ls : List ChangeLevel) :
    ∀ l, (ls.foldl (fun acc x => if levelOrd acc < levelOrd x then x else acc) l) ∈ l :: ls := by
  induction ls with
  | nil => intro l; simp
  | cons x xs ih =>
    intro l
    simp only [List.foldl_cons]
    have h := ih (if levelOrd l < levelOrd x then x else l)
    rcases List.mem_cons.1 h with h1 | h1
    · rw [h1]
      split
      · exact List.mem_cons_of_mem _ (List.mem_cons_self _ _)
      · exact List.mem_cons_self _ _
    · exact List.mem_cons_of_mem _ (List.mem_cons_of_mem _ h1)

theorem foldMax_le (ls : List ChangeLevel) :
    ∀ l x, x ∈ l :: ls →
      levelOrd x ≤ levelOrd (ls.foldl (fun acc x => if levelOrd acc < levelOrd x then x else acc) l) := by
  induction ls with
  | nil =>
    intro l x hx
    rcases List.mem_cons.1 hx with h | h
    · rw [h]; simp
    · cases h
  | cons y ys ih =>
    intro l x hx
    simp only [List.foldl_cons]
    have hm : levelOrd (if levelOrd l < levelOrd y then y else l) ≤
        levelOrd (ys.foldl (fun acc x => if levelOrd acc < levelOrd x then x else acc)
          (if levelOrd l < levelOrd y then y else l)) :=
      ih _ _ (List.mem_cons_self _ _)
    rcases List.mem_cons.1 hx with h | h
    · have h1 : levelOrd x ≤ levelOrd (if levelOrd l < levelOrd y then y else l) := by
        rw [h]; split <;> omega
      exact le_trans h1 hm
    · rcases List.mem_cons.1 h with h2 | h2
      · have h1 : levelOrd x ≤ levelOrd (if levelOrd l < levelOrd y then y else l) := by
          rw [h2]; split <;> omega
        exact le_trans h1 hm
      · exact ih _ x (List.mem_cons_of_mem _ h2)

/-! ## C1 -/

/-- C1: for every DiffResult, the aggregate severity equals the maximum of the
records' severities under the total order PATCH < MINOR < MAJOR < BREAKING
(membership plus upper bound characterize the maximum of a total order), and
the empty record list has aggregate severity PATCH, the lowest tier. -/
theorem c1_aggregate_severity_is_max (changes : List SchemaChange) :
    (changes = [] → resultLevel changes = .PATCH) ∧
    (changes ≠ [] →
      resultLevel changes ∈ changes.map (·.level) ∧
      ∀ c ∈ changes, levelLe c.level (resultLevel changes)) := by
  constructor
  · intro h; simp [resultLevel, h]
  · intro h
    have hres : resultLevel changes = maxLevel (changes.map (·.level)) := by
      simp [resultLevel, h]
    obtain ⟨c0, cs, hc⟩ := List.exists_cons_of_ne_nil h
    have hmap : changes.map (·.level) = c0.level :: cs.map (·.level) := by
      rw [hc]; rfl
    constructor
    · rw [hres, hmap, maxLevel]
      exact foldMax_mem _ _
    · intro c hcm
      have hmem : c.level ∈ changes.map (·.level) :=
        List.mem_map.2 ⟨c, hcm, rfl⟩
      rw [hres, hmap, maxLevel, levelLe]
      exact foldMax_le _ _ _ (by rw [← hmap]; exact hmem)

/-- Witness for C1 at the spec's example: one PATCH and one MAJOR record
aggregate to MAJOR. -/
def demoPatchChange : SchemaChange :=
  { change_type := .SCHEMA_METADATA_CHANGED, level := .PATCH, path := "version",
    message := "m" }

def demoMajorChange : SchemaChange :=
  { change_type := .SHEET_REMOVED, level := .MAJOR, path := "Position",
    message := "m" }

theorem c1_aggregate_severity_is_max_witness :
    resultLevel [demoPatchChange, demoMajorChange] ∈
        [demoPatchChange, demoMajorChange].map (·.level) ∧
      ∀ c ∈ [demoPatchChange, demoMajorChange],
        levelLe c.level (resultLevel [demoPatchChange, demoMajorChange]) :=
  (c1_aggregate_severity_is_max [demoPatchChange, demoMajorChange]).2 (by decide)

/-! ## C3 -/

/-- Strict lexicographic order on (major, minor, patch). -/
def semVerLt (a b : SemanticVersion) : Prop :=
  a.major < b.major ∨
    (a.major = b.major ∧
      (a.minor < b.minor ∨ (a.minor = b.minor ∧ a.patch < b.patch)))

/-- C3: the bump table sends PATCH to (major, minor, patch+1), MINOR to
(major, minor+1, 0), and MAJOR or BREAKING to (major+1, 0, 0); for every
severity the bumped version is strictly greater in lexicographic order. -/
theorem c3_bump_table_and_monotonicity (v : SemanticVersion) :
    bumpVersion v .PATCH = ⟨v.major, v.minor, v.patch + 1⟩ ∧
    bumpVersion v .MINOR = ⟨v.major, v.minor + 1, 0⟩ ∧
    bumpVersion v .MAJOR = ⟨v.major + 1, 0, 0⟩ ∧
    bumpVersion v .BREAKING = ⟨v.major + 1, 0, 0⟩ ∧
    ∀ level : ChangeLevel, semVerLt v (bumpVersion v level) := by
  refine ⟨rfl, rfl, rfl, rfl, ?_⟩
  intro level
  cases level <;> simp [bumpVersion, semVerLt]

/-! ## C4 -/

/-- Counterexample for C4: the claim says a bare integer is accepted and
normalized, but `SemanticVersion.parse` raises `SemanticVersionError` on
`"1"`. -/
theorem c4_counterexample_bare_integer_rejected :
    parseSemVer "1" = .error "Invalid semantic version string: 1" := by decide

/-- C4 (amended): `SemanticVersion.parse` succeeds exactly on strings that
strip-and-split into exactly three components, each accepted by `int(...)`;
on success the three components give major, minor and patch.  Bare integers
and two-component forms are rejected with the version-format error. -/
theorem c4_parse_exactly_three_numeric_components (s : String) :
    ((∃ v, parseSemVer s = .ok v) ↔
      ((splitOnChar '.' (pyStrip s)).length = 3 ∧
        ∀ p ∈ splitOnChar '.' (pyStrip s), (pyInt p).isSome)) ∧
    (∀ v, parseSemVer s = .ok v →
      pyInt ((splitOnChar '.' (pyStrip s)).getD 0 "") = some v.major ∧
      pyInt ((splitOnChar '.' (pyStrip s)).getD 1 "") = some v.minor ∧
      pyInt ((splitOnChar '.' (pyStrip s)).getD 2 "") = some v.patch) := by
  by_cases hl : (splitOnChar '.' (pyStrip s)).length = 3
  · obtain ⟨a, b, c, habc⟩ := List.length_eq_three.1 hl
    have hp : parseSemVer s =
        (match pyInt a, pyInt b, pyInt c with
         | some x, some y, some z => Except.ok (⟨x, y, z⟩ : SemanticVersion)
         | _, _, _ => .error ("Invalid semantic version string: " ++ s)) := by
      simp only [parseSemVer, habc, List.length_cons, List.length_nil, List.getD,
        List.get?, Nat.reduceAdd, if_pos, Option.getD_some]
    rw [habc]
    cases ha : pyInt a <;> cases hb : pyInt b <;> cases hc : pyInt c <;>
      rw [ha, hb, hc] at hp <;>
      simp_all [List.getD]
  · constructor
    · constructor
      · rintro ⟨v, hv⟩
        simp only [parseSemVer, if_neg hl] at hv
        exact Except.noConfusion hv
      · intro h
        exact absurd h.1 hl
    · intro v hv
      simp only [parseSemVer, if_neg hl] at hv
      exact Except.noConfusion hv

/-- Witness for C4's amended theorem at "1.2.3". -/
theorem c4_parse_exactly_three_numeric_components_witness :
    pyInt ((splitOnChar '.' (pyStrip "1.2.3")).getD 0 "") = some (1 : Int) :=
  ((c4_parse_exactly_three_numeric_components "1.2.3").2 ⟨1, 2, 3⟩ (by decide)).1

/-! ## C5 -/

theorem flatMap_sortStrs_filter_not_mem {α : Type} (keys : List String)
    (f : String → List α) :
    (sortStrs (keys.filter (fun k => decide (k ∉ keys)))).flatMap f = [] := by
  have h : keys.filter (fun k => decide (k ∉ keys)) = [] :=
    List.filter_eq_nil_iff.2 (fun a ha => by simp [ha])
  rw [h]; rfl

theorem flatMap_sortStrs_filter_dedup_not_mem {α : Type} (keys : List String)
    (f : String → List α) :
    (sortStrs (keys.dedup.filter (fun k => decide (k ∉ keys)))).flatMap f = [] := by
  have h : keys.dedup.filter (fun k => decide (k ∉ keys)) = [] :=
    List.filter_eq_nil_iff.2 (fun a ha => by simp [List.mem_dedup.1 ha])
  rw [h]; rfl

theorem diffColumns_self (sp : String) (cols : List ColumnDef) :
    diffColumns sp cols cols = [] := by
  simp only [diffColumns]
  refine List.append_eq_nil.2 ⟨List.append_eq_nil.2
    ⟨flatMap_sortStrs_filter_not_mem _ _, flatMap_sortStrs_filter_not_mem _ _⟩, ?_⟩
  refine List.flatMap_eq_nil_iff.2 ?_
  intro k _
  cases h : alookup (indexCols cols) k with
  | none => rfl
  | some pc =>
    obtain ⟨pos, c⟩ := pc
    simp [metaFields]

theorem diffBlocks_self (sp : String) (b : Option BlocksVal) :
    diffBlocks sp b b = [] := by
  cases b <;> simp [diffBlocks]

theorem diffSheets_self (m : List (String × SheetDef)) : diffSheets m m = [] := by
  simp only [diffSheets]
  refine List.append_eq_nil.2 ⟨List.append_eq_nil.2
    ⟨flatMap_sortStrs_filter_dedup_not_mem _ _,
     flatMap_sortStrs_filter_dedup_not_mem _ _⟩, ?_⟩
  refine List.flatMap_eq_nil_iff.2 ?_
  intro s _
  cases h : alookup m s with
  | none => rfl
  | some sh =>
    simp [diffRowStart, diffColumns_self, diffBlocks_self]

theorem diffMetadata_self (S : Schema) : diffMetadata S S = [] := by
  simp [diffMetadata, metadataFields]

theorem schemaDiff_self (S : Schema) : schemaDiff S S = [] := by
  simp [schemaDiff, diffMetadata_self, diffSheets_self]

/-- C5: diffing a schema against itself is empty, and applying versioning to
an empty DiffResult is a no-op: it reports no change, keeps the version equal
to the old version, and writes no schema, history or report file (the write
log stays empty and no path is reported). -/
theorem c5_diff_self_empty_and_versioning_noop (S : Schema)
    (curVer : Option String) (ts : String) :
    schemaDiff S S = [] ∧
    applyVersioning S (schemaDiff S S) curVer ts =
      .ok ({ decision := .NO_CHANGE, old_version := curVer,
             new_version := curVer, diff_level := .PATCH }, []) := by
  have hdiff : schemaDiff S S = [] := schemaDiff_self S
  refine ⟨hdiff, ?_⟩
  rw [hdiff]
  rfl

/-! ## C2 -/

/-- The classification table of the engine: change type to severity. -/
def classLevel : ChangeType → ChangeLevel
  | .SCHEMA_METADATA_CHANGED => .PATCH
  | .SHEET_ADDED => .MINOR
  | .SHEET_REMOVED => .MAJOR
  | .ROW_START_CHANGED => .MAJOR
  | .COLUMN_ADDED => .MINOR
  | .COLUMN_REMOVED => .MAJOR
  | .COLUMN_TYPE_CHANGED => .MAJOR
  | .COLUMN_POSITION_CHANGED => .MINOR
  | .COLUMN_META_CHANGED => .PATCH
  | .BLOCKS_CHANGED => .MINOR
  | .UNKNOWN => .PATCH

/-- The (change type, severity) pairs the engine can emit. -/
def changePairs : List (ChangeType × ChangeLevel) :=
  [(.SCHEMA_METADATA_CHANGED, .PATCH), (.SHEET_REMOVED, .MAJOR),
   (.SHEET_ADDED, .MINOR), (.ROW_START_CHANGED, .MAJOR),
   (.COLUMN_REMOVED, .MAJOR), (.COLUMN_ADDED, .MINOR),
   (.COLUMN_POSITION_CHANGED, .MINOR), (.COLUMN_TYPE_CHANGED, .MAJOR),
   (.COLUMN_META_CHANGED, .PATCH), (.BLOCKS_CHANGED, .MINOR)]

theorem mem_ite_singleton {α : Type} {c r : α} {p : Prop} [Decidable p]
    (h : c ∈ if p then [r] else ([] : List α)) : c = r := by
  split at h
  · simpa using h
  · cases h

theorem mem_diffMetadata_shape {old new : Schema} {c : SchemaChange}
    (h : c ∈ diffMetadata old new) : (c.change_type, c.level) ∈ changePairs := by
  simp only [diffMetadata, List.mem_flatMap] at h
  obtain ⟨mf, _, hc⟩ := h
  rw [mem_ite_singleton hc]
  exact show (ChangeType.SCHEMA_METADATA_CHANGED, ChangeLevel.PATCH) ∈ changePairs
    by decide

theorem mem_diffRowStart_shape {sp : String} {a b : Option Int} {c : SchemaChange}
    (h : c ∈ diffRowStart sp a b) : (c.change_type, c.level) ∈ changePairs := by
  simp only [diffRowStart] at h
  rw [mem_ite_singleton h]
  exact show (ChangeType.ROW_START_CHANGED, ChangeLevel.MAJOR) ∈ changePairs by decide

theorem mem_diffBlocks_shape {sp : String} {a b : Option BlocksVal} {c : SchemaChange}
    (h : c ∈ diffBlocks sp a b) : (c.change_type, c.level) ∈ changePairs := by
  simp only [diffBlocks] at h
  rcases ha : a with _ | av <;> rcases hb : b with _ | bv <;> rw [ha, hb] at h
  · cases h
  all_goals
    rw [mem_ite_singleton h]
    exact show (ChangeType.BLOCKS_CHANGED, ChangeLevel.MINOR) ∈ changePairs by decide

theorem mem_diffColumns_shape {sp : String} {oc nc : List ColumnDef}
    {c : SchemaChange} (h : c ∈ diffColumns sp oc nc) :
    (c.change_type, c.level) ∈ changePairs := by
  simp only [diffColumns] at h
  rcases List.mem_append.1 h with h | h
  · rcases List.mem_append.1 h with h | h
    · -- removed
      obtain ⟨k, _, hc⟩ := List.mem_flatMap.1 h
      cases hl : alookup (indexCols oc) k with
      | none => rw [hl] at hc; cases hc
      | some pc =>
        obtain ⟨idx, col⟩ := pc
        rw [hl] at hc
        rw [List.mem_singleton.1 hc]
        exact show (ChangeType.COLUMN_REMOVED, ChangeLevel.MAJOR) ∈ changePairs
          by decide
    · -- added
      obtain ⟨k, _, hc⟩ := List.mem_flatMap.1 h
      cases hl : alookup (indexCols nc) k with
      | none => rw [hl] at hc; cases hc
      | some pc =>
        obtain ⟨idx, col⟩ := pc
        rw [hl] at hc
        rw [List.mem_singleton.1 hc]
        exact show (ChangeType.COLUMN_ADDED, ChangeLevel.MINOR) ∈ changePairs
          by decide
  · -- common
    obtain ⟨k, _, hc⟩ := List.mem_flatMap.1 h
    cases hl : alookup (indexCols oc) k with
    | none => rw [hl] at hc; cases hc
    | some pc =>
      obtain ⟨oldPos, oldCol⟩ := pc
      cases hl2 : alookup (indexCols nc) k with
      | none => rw [hl, hl2] at hc; cases hc
      | some pc2 =>
        obtain ⟨newPos, newCol⟩ := pc2
        rw [hl, hl2] at hc
        rcases List.mem_append.1 hc with h2 | h2
        · rcases List.mem_append.1 h2 with h3 | h3
          · rw [mem_ite_singleton h3]
            exact show (ChangeType.COLUMN_POSITION_CHANGED, ChangeLevel.MINOR) ∈
              changePairs by decide
          · rw [mem_ite_singleton h3]
            exact show (ChangeType.COLUMN_TYPE_CHANGED, ChangeLevel.MAJOR) ∈
              changePairs by decide
        · obtain ⟨mf, _, hm⟩ := List.mem_flatMap.1 h2
          rw [mem_ite_singleton hm]
          exact show (ChangeType.COLUMN_META_CHANGED, ChangeLevel.PATCH) ∈
            changePairs by decide

theorem mem_diffSheets_shape {old new : List (String × SheetDef)} {c : SchemaChange}
    (h : c ∈ diffSheets old new) : (c.change_type, c.level) ∈ changePairs := by
  simp only [diffSheets] at h
  rcases List.mem_append.1 h with h | h
  · rcases List.mem_append.1 h with h | h
    · obtain ⟨s, _, hc⟩ := List.mem_flatMap.1 h
      cases hl : alookup old s with
      | none => rw [hl] at hc; cases hc
      | some sh =>
        rw [hl] at hc
        rw [List.mem_singleton.1 hc]
        exact show (ChangeType.SHEET_REMOVED, ChangeLevel.MAJOR) ∈ changePairs
          by decide
    · obtain ⟨s, _, hc⟩ := List.mem_flatMap.1 h
      cases hl : alookup new s with
      | none => rw [hl] at hc; cases hc
      | some sh =>
        rw [hl] at hc
        rw [List.mem_singleton.1 hc]
        exact show (ChangeType.SHEET_ADDED, ChangeLevel.MINOR) ∈ changePairs
          by decide
  · obtain ⟨s, _, hc⟩ := List.mem_flatMap.1 h
    cases hl : alookup old s with
    | none => rw [hl] at hc; cases hc
    | some osh =>
      cases hl2 : alookup new s with
      | none => rw [hl, hl2] at hc; cases hc
      | some nsh =>
        rw [hl, hl2] at hc
        rcases List.mem_append.1 hc with h2 | h2
        · rcases List.mem_append.1 h2 with h3 | h3
          · exact mem_diffRowStart_shape h3
          · exact mem_diffColumns_shape h3
        · exact mem_diffBlocks_shape h2

theorem mem_schemaDiff_shape {old new : Schema} {c : SchemaChange}
    (h : c ∈ schemaDiff old new) : (c.change_type, c.level) ∈ changePairs := by
  rcases List.mem_append.1 h with h | h
  · exact mem_diffMetadata_shape h
  · exact mem_diffSheets_shape h

/-- C2: every record the engine emits carries exactly the severity the
classification table fixes for its change kind (sheet removed MAJOR, sheet
added MINOR, row-start MAJOR, column removed MAJOR, column added MINOR,
position MINOR, type MAJOR, secondary metadata PATCH, blocks MINOR for the
whole block set of the sheet as a single record, document metadata PATCH),
and the engine never emits a BREAKING record. -/
theorem c2_classification_table (old new : Schema) :
    (∀ c ∈ schemaDiff old new,
      c.level = classLevel c.change_type ∧ c.change_type ≠ .UNKNOWN ∧
        c.level ≠ .BREAKING) ∧
    (∀ (sp : String) (ob nb : Option BlocksVal),
      (diffBlocks sp ob nb).length ≤ 1 ∧
      ∀ c ∈ diffBlocks sp ob nb,
        c.change_type = .BLOCKS_CHANGED ∧ c.level = .MINOR ∧
          c.path = sp ++ ".blocks") := by
  constructor
  · intro c hc
    have hp := mem_schemaDiff_shape hc
    simp only [changePairs, List.mem_cons, List.mem_singleton, Prod.mk.injEq,
      List.not_mem_nil, or_false] at hp
    rcases hp with ⟨h1, h2⟩ | ⟨h1, h2⟩ | ⟨h1, h2⟩ | ⟨h1, h2⟩ | ⟨h1, h2⟩ |
      ⟨h1, h2⟩ | ⟨h1, h2⟩ | ⟨h1, h2⟩ | ⟨h1, h2⟩ | ⟨h1, h2⟩ <;>
      rw [h1, h2] <;> exact ⟨rfl, by decide, by decide⟩
  · intro sp ob nb
    constructor
    · rcases ob with _ | av <;> rcases nb with _ | bv <;> simp [diffBlocks] <;> split <;> simp
    · intro c hc
      simp only [diffBlocks] at hc
      rcases ha : ob with _ | av <;> rcases hb : nb with _ | bv <;> rw [ha, hb] at hc
      · cases hc
      all_goals rw [mem_ite_singleton hc]; exact ⟨rfl, rfl, rfl⟩

/-- Witness material: demo schemas in which the "qty" column of sheet
"Position" is simultaneously moved (index 1 to 0) and retyped (string to
number). -/
def demoQtyOldCol : ColumnDef :=
  { col := some "B", python_key := some "qty", type := some "string" }

def demoQtyNewCol : ColumnDef :=
  { col := some "A", python_key := some "qty", type := some "number" }

def demoOldPositionSheet : SheetDef :=
  { row_start := some 2,
    columns := [{ col := some "A", python_key := some "symbol", type := some "string" },
                demoQtyOldCol] }

def demoNewPositionSheet : SheetDef :=
  { row_start := some 2,
    columns := [demoQtyNewCol,
                { col := some "B", python_key := some "symbol", type := some "string" }] }

def demoOldSchema : Schema :=
  { version := some "1.0.0", sheets := [("Position", demoOldPositionSheet)] }

def demoNewSchema : Schema :=
  { version := some "1.0.0", sheets := [("Position", demoNewPositionSheet)] }

theorem c2_classification_table_witness :
    mkColumnTypeChanged "Position" "qty" (some "string") (some "number") ∈
        schemaDiff demoOldSchema demoNewSchema ∧
      (mkColumnTypeChanged "Position" "qty" (some "string") (some "number")).level =
        classLevel (mkColumnTypeChanged "Position" "qty" (some "string")
          (some "number")).change_type :=
  ⟨by decide,
   ((c2_classification_table demoOldSchema demoNewSchema).1 _ (by decide)).1⟩

/-! ## C6 -/

theorem mem_diffMetadata_fields {old new : Schema} {c : SchemaChange}
    (h : c ∈ diffMetadata old new) :
    c.change_type = .SCHEMA_METADATA_CHANGED ∧ c.level = .PATCH := by
  simp only [diffMetadata, List.mem_flatMap] at h
  obtain ⟨mf, _, hc⟩ := h
  rw [mem_ite_singleton hc]
  exact ⟨rfl, rfl⟩

/-- Diffing the empty base schema against `new` yields the metadata records
followed by one SHEET_ADDED record per distinct sheet name in sorted order. -/
theorem schemaDiff_emptyBase (new : Schema) :
    schemaDiff emptyBaseSchema new =
      diffMetadata emptyBaseSchema new ++
        (sortStrs ((new.sheets.map (·.1)).dedup)).flatMap (fun s =>
          match alookup new.sheets s with
          | some sh => [mkSheetAddedRec s sh]
          | Option.none => []) := by
  have hfil : ((new.sheets.map (·.1)).dedup).filter
      (fun k => decide (k ∉ ([] : List String))) =
      (new.sheets.map (·.1)).dedup :=
    List.filter_eq_self.2 (fun a _ => by simp)
  have hsort0 : sortStrs [] = [] := rfl
  simp only [schemaDiff, diffSheets, emptyBaseSchema, List.map_nil,
    List.dedup_nil, List.filter_nil, hfil, hsort0, List.flatMap_nil,
    List.nil_append, List.append_nil]

theorem count_added_filter (m : List (String × SheetDef)) (l : List String)
    (name : String) (hsub : ∀ s ∈ l, (alookup m s).isSome) :
    ((l.flatMap (fun s =>
        match alookup m s with
        | some sh => [mkSheetAddedRec s sh]
        | Option.none => [])).filter
      (fun c => decide (c.change_type = .SHEET_ADDED ∧ c.path = name))).length =
      l.count name := by
  induction l with
  | nil => rfl
  | cons s t ih =>
    have hs : (alookup m s).isSome := hsub s (List.mem_cons_self _ _)
    obtain ⟨sh, hsh⟩ := Option.isSome_iff_exists.1 hs
    have iht := ih (fun x hx => hsub x (List.mem_cons_of_mem _ hx))
    rw [List.flatMap_cons, hsh, List.filter_append, List.length_append, iht,
      List.count_cons]
    by_cases hname : s = name
    · simp [mkSheetAddedRec, List.filter, hname, Nat.add_comm]
    · have hbeq : (s == name) = false := by simp [hname]
      simp [mkSheetAddedRec, List.filter, hname, hbeq]

theorem resultLevel_minor_of_bounded {cs : List SchemaChange} (hne : cs ≠ [])
    (hub : ∀ c ∈ cs, levelOrd c.level ≤ 1)
    (hmin : ∃ c ∈ cs, c.level = .MINOR) :
    resultLevel cs = .MINOR := by
  have hres : resultLevel cs = maxLevel (cs.map (·.level)) := by
    simp [resultLevel, hne]
  obtain ⟨c0, t, hc⟩ := List.exists_cons_of_ne_nil hne
  have hmap : cs.map (·.level) = c0.level :: t.map (·.level) := by rw [hc]; rfl
  have hmem : maxLevel (cs.map (·.level)) ∈ cs.map (·.level) := by
    rw [hmap, maxLevel]; exact foldMax_mem _ _
  obtain ⟨cm, hcm, hcml⟩ := List.mem_map.1 hmem
  obtain ⟨cmin, hcmin, hcminl⟩ := hmin
  have hle : levelOrd cmin.level ≤ levelOrd (maxLevel (cs.map (·.level))) := by
    rw [hmap, maxLevel]
    exact foldMax_le _ _ _ (by rw [← hmap]; exact List.mem_map.2 ⟨cmin, hcmin, rfl⟩)
  rw [hcminl] at hle
  have hub2 : levelOrd (maxLevel (cs.map (·.level))) ≤ 1 := by
    rw [← hcml]; exact hub cm hcm
  cases hM : maxLevel (cs.map (·.level)) with
  | PATCH => rw [hM] at hle; exact absurd hle (by decide)
  | MINOR => rw [hres, hM]
  | MAJOR => rw [hM] at hub2; exact absurd hub2 (by decide)
  | BREAKING => rw [hM] at hub2; exact absurd hub2 (by decide)

/-- Exactly one PATCH metadata record is emitted per metadata field whose
value differs, identified by its path (the field key). -/
theorem diffMetadata_count_per_field (old new : Schema) :
    ∀ mf ∈ metadataFields,
    ((diffMetadata old new).filter
      (fun c => decide (c.change_type = ChangeType.SCHEMA_METADATA_CHANGED ∧
        c.path = mf.1))).length =
    if mf.2 old ≠ mf.2 new then 1 else 0 := by
  intro mf hmf
  fin_cases hmf <;>
    simp only [metadataFields, diffMetadata, List.flatMap_cons, List.flatMap_nil,
      List.append_nil] <;>
    split_ifs <;>
    simp_all [List.filter]

/-- Counterexample for C6: diffing the empty schema against a one-sheet
schema whose version is "1.0.0" also emits a document-metadata record, so not
every record is a SHEET_ADDED record. -/
def c6CounterSchema : Schema := { version := some "1.0.0", sheets := [("S", {})] }

theorem c6_counterexample_metadata_record :
    ¬ (∀ c ∈ schemaDiff emptyBaseSchema c6CounterSchema,
        c.change_type = ChangeType.SHEET_ADDED) := by decide

/-- C6 (amended): diffing the empty base schema against any schema with at
least one sheet yields exactly one SHEET_ADDED record (at MINOR) per distinct
sheet name, plus exactly one PATCH document-metadata record per top-level
metadata field whose value differs (each carrying that field's key as its
path, and no metadata record for any other path), and nothing else; the
aggregate severity is MINOR. -/
theorem c6_empty_diff_one_added_per_sheet (new : Schema) (h : new.sheets ≠ []) :
    (∀ c ∈ schemaDiff emptyBaseSchema new,
      (c.change_type = .SHEET_ADDED ∧ c.level = .MINOR) ∨
      (c.change_type = .SCHEMA_METADATA_CHANGED ∧ c.level = .PATCH)) ∧
    (∀ name : String,
      ((schemaDiff emptyBaseSchema new).filter
          (fun c => decide (c.change_type = .SHEET_ADDED ∧ c.path = name))).length =
        if name ∈ new.sheets.map (·.1) then 1 else 0) ∧
    (∀ mf ∈ metadataFields,
      ((schemaDiff emptyBaseSchema new).filter
          (fun c => decide (c.change_type = .SCHEMA_METADATA_CHANGED ∧
            c.path = mf.1))).length =
        if mf.2 emptyBaseSchema ≠ mf.2 new then 1 else 0) ∧
    (∀ c ∈ schemaDiff emptyBaseSchema new,
      c.change_type = .SCHEMA_METADATA_CHANGED →
        c.path ∈ metadataFields.map (·.1)) ∧
    resultLevel (schemaDiff emptyBaseSchema new) = .MINOR := by
  have hstruct := schemaDiff_emptyBase new
  have hsub : ∀ s ∈ sortStrs ((new.sheets.map (·.1)).dedup),
      (alookup new.sheets s).isSome := by
    intro s hsmem
    have hs1 : s ∈ new.sheets.map (·.1) :=
      List.mem_dedup.1 (mem_sortStrs.1 hsmem)
    obtain ⟨p, hp, hps⟩ := List.mem_map.1 hs1
    have hex : ∃ x ∈ new.sheets, (fun q => decide (q.1 = s)) x = true :=
      ⟨p, hp, by simp [hps]⟩
    obtain ⟨q, hq⟩ := Option.isSome_iff_exists.1 (List.find?_isSome.2 hex)
    rw [alookup, hq]
    rfl
  have haddmem : ∀ c ∈ (sortStrs ((new.sheets.map (·.1)).dedup)).flatMap (fun s =>
      match alookup new.sheets s with
      | some sh => [mkSheetAddedRec s sh]
      | Option.none => []),
      c.change_type = ChangeType.SHEET_ADDED ∧ c.level = ChangeLevel.MINOR := by
    intro c hc
    obtain ⟨s, hsmem, hcs⟩ := List.mem_flatMap.1 hc
    obtain ⟨sh, hsh⟩ := Option.isSome_iff_exists.1 (hsub s hsmem)
    rw [hsh] at hcs
    rw [List.mem_singleton.1 hcs]
    exact ⟨rfl, rfl⟩
  refine ⟨?_, ?_, ?_, ?_, ?_⟩
  · intro c hc
    rw [hstruct] at hc
    rcases List.mem_append.1 hc with hm | hm
    · exact Or.inr (mem_diffMetadata_fields hm)
    · exact Or.inl (haddmem c hm)
  · intro name
    rw [hstruct, List.filter_append, List.length_append]
    have hmeta : (diffMetadata emptyBaseSchema new).filter
        (fun c => decide (c.change_type = .SHEET_ADDED ∧ c.path = name)) = [] := by
      refine List.filter_eq_nil_iff.2 ?_
      intro c hcm
      have := (mem_diffMetadata_fields hcm).1
      simp [this]
    rw [hmeta]
    have hcount := count_added_filter new.sheets
      (sortStrs ((new.sheets.map (·.1)).dedup)) name hsub
    rw [List.length_nil, Nat.zero_add, hcount,
      (sortStrs_perm _).count_eq name, List.count_dedup]
  · intro mf hmf
    rw [hstruct, List.filter_append, List.length_append]
    have hadded0 : ((sortStrs ((new.sheets.map (·.1)).dedup)).flatMap (fun s =>
        match alookup new.sheets s with
        | some sh => [mkSheetAddedRec s sh]
        | Option.none => [])).filter
        (fun c => decide (c.change_type = .SCHEMA_METADATA_CHANGED ∧
          c.path = mf.1)) = [] := by
      refine List.filter_eq_nil_iff.2 ?_
      intro c hcm
      have := (haddmem c hcm).1
      simp [this]
    rw [hadded0, List.length_nil, Nat.add_zero]
    exact diffMetadata_count_per_field emptyBaseSchema new mf hmf
  · intro c hc hct
    rw [hstruct] at hc
    rcases List.mem_append.1 hc with hm | hm
    · simp only [diffMetadata, List.mem_flatMap] at hm
      obtain ⟨mf, hmf, hcm⟩ := hm
      rw [mem_ite_singleton hcm]
      exact List.mem_map.2 ⟨mf, hmf, rfl⟩
    · rw [(haddmem c hm).1] at hct
      exact absurd hct (by decide)
  · have hnames : new.sheets.map (·.1) ≠ [] := by
      intro hx
      exact h (List.map_eq_nil.1 hx)
    obtain ⟨n0, hn0⟩ := List.exists_mem_of_ne_nil _ hnames
    have hn0s : n0 ∈ sortStrs ((new.sheets.map (·.1)).dedup) :=
      mem_sortStrs.2 (List.mem_dedup.2 hn0)
    obtain ⟨sh0, hsh0⟩ := Option.isSome_iff_exists.1 (hsub n0 hn0s)
    have hrec : mkSheetAddedRec n0 sh0 ∈ schemaDiff emptyBaseSchema new := by
      rw [hstruct]
      refine List.mem_append.2 (Or.inr ?_)
      refine List.mem_flatMap.2 ⟨n0, hn0s, ?_⟩
      rw [hsh0]
      exact List.mem_singleton_self _
    refine resultLevel_minor_of_bounded (List.ne_nil_of_mem hrec) ?_ ⟨_, hrec, rfl⟩
    intro c hc
    rw [hstruct] at hc
    rcases List.mem_append.1 hc with hm | hm
    · rw [(mem_diffMetadata_fields hm).2]; exact Nat.zero_le 1
    · rw [(haddmem c hm).2]; exact Nat.le_refl 1

/-- Witness for C6's amended theorem at the one-sheet schema. -/
theorem c6_empty_diff_one_added_per_sheet_witness :
    resultLevel (schemaDiff emptyBaseSchema c6CounterSchema) = .MINOR :=
  (c6_empty_diff_one_added_per_sheet c6CounterSchema (by decide)).2.2.2.2

/-! ## C8 -/

theorem alookup_mem_keys {β : Type} {m : List (String × β)} {k : String}
    {v : β} (h : alookup m k = some v) : k ∈ m.map (·.1) := by
  rw [alookup] at h
  cases hf : m.find? (fun p => decide (p.1 = k)) with
  | none => rw [hf] at h; cases h
  | some q =>
    have hq1 := List.find?_some hf
    have hq : q.1 = k := by simpa using hq1
    exact hq ▸ List.mem_map.2 ⟨q, List.mem_of_find?_eq_some hf, rfl⟩

/-- C8: when a column of a common sheet is present in both versions and both
its position index and its type differ, the diff contains the separate
COLUMN_POSITION_CHANGED (MINOR) and COLUMN_TYPE_CHANGED (MAJOR) records for
it — they are not merged. -/
theorem c8_moved_and_retyped_two_records (old new : Schema) (s k : String)
    (osh nsh : SheetDef) (opos npos : Nat) (ocol ncol : ColumnDef)
    (ho : alookup old.sheets s = some osh) (hn : alookup new.sheets s = some nsh)
    (hok : alookup (indexCols osh.columns) k = some (opos, ocol))
    (hnk : alookup (indexCols nsh.columns) k = some (npos, ncol))
    (hpos : opos ≠ npos) (htype : ocol.type ≠ ncol.type) :
    mkColumnPositionChanged s k opos npos ∈ schemaDiff old new ∧
    mkColumnTypeChanged s k ocol.type ncol.type ∈ schemaDiff old new := by
  have hsmem : s ∈ sortStrs (((old.sheets.map (·.1)).dedup).filter
      (fun x => decide (x ∈ new.sheets.map (·.1)))) := by
    refine mem_sortStrs.2 (List.mem_filter.2 ⟨?_, ?_⟩)
    · exact List.mem_dedup.2 (alookup_mem_keys ho)
    · exact decide_eq_true (alookup_mem_keys hn)
  have hkmem : k ∈ sortStrs ((((indexCols osh.columns).map (·.1)).filter
      (fun x => decide (x ∈ (indexCols nsh.columns).map (·.1))))) := by
    refine mem_sortStrs.2 (List.mem_filter.2 ⟨?_, ?_⟩)
    · exact alookup_mem_keys hok
    · exact decide_eq_true (alookup_mem_keys hnk)
  have hcols : ∀ c, c ∈ ((if opos ≠ npos then [mkColumnPositionChanged s k opos npos]
        else []) ++
        (if ocol.type ≠ ncol.type then [mkColumnTypeChanged s k ocol.type ncol.type]
        else []) ++
        metaFields.flatMap (fun mf =>
          if mf.2 ocol ≠ mf.2 ncol then
            [{ change_type := .COLUMN_META_CHANGED, level := .PATCH,
               path := (s ++ ".columns[" ++ k ++ "]") ++ "." ++ mf.1,
               message := "Column '" ++ k ++ "' meta field '" ++ mf.1
                 ++ "' changed in sheet '" ++ s ++ "' from "
                 ++ reprVal (.optStr (mf.2 ocol)) ++ " to "
                 ++ reprVal (.optStr (mf.2 ncol)),
               old_value := .optStr (mf.2 ocol), new_value := .optStr (mf.2 ncol) }]
          else [])) →
      c ∈ diffColumns s osh.columns nsh.columns := by
    intro c hc
    simp only [diffColumns]
    refine List.mem_append.2 (Or.inr ?_)
    refine List.mem_flatMap.2 ⟨k, hkmem, ?_⟩
    rw [hok, hnk]
    exact hc
  have hsheet : ∀ c, c ∈ diffColumns s osh.columns nsh.columns →
      c ∈ schemaDiff old new := by
    intro c hc
    refine List.mem_append.2 (Or.inr ?_)
    simp only [diffSheets]
    refine List.mem_append.2 (Or.inr ?_)
    refine List.mem_flatMap.2 ⟨s, hsmem, ?_⟩
    rw [ho, hn]
    exact List.mem_append.2 (Or.inl (List.mem_append.2 (Or.inr hc)))
  constructor
  · refine hsheet _ (hcols _ ?_)
    refine List.mem_append.2 (Or.inl (List.mem_append.2 (Or.inl ?_)))
    rw [if_pos hpos]
    exact List.mem_singleton_self _
  · refine hsheet _ (hcols _ ?_)
    refine List.mem_append.2 (Or.inl (List.mem_append.2 (Or.inr ?_)))
    rw [if_pos htype]
    exact List.mem_singleton_self _

/-- Witness for C8 at the demo schemas. -/
theorem c8_moved_and_retyped_two_records_witness :
    mkColumnPositionChanged "Position" "qty" 1 0 ∈
        schemaDiff demoOldSchema demoNewSchema ∧
      mkColumnTypeChanged "Position" "qty" (some "string") (some "number") ∈
        schemaDiff demoOldSchema demoNewSchema :=
  c8_moved_and_retyped_two_records demoOldSchema demoNewSchema "Position" "qty"
    demoOldPositionSheet demoNewPositionSheet 1 0 demoQtyOldCol demoQtyNewCol
    (by decide) (by decide) (by decide) (by decide) (by decide) (by decide)

/-! ## C10 -/

/-- C10: on a non-empty diff, the schema `apply_versioning` persists (history
snapshot first, canonical file second) and reports is the input schema with
only its top-level version entry replaced by the bumped version string; every
other top-level entry is carried over unchanged. -/
theorem c10_only_version_replaced (s : Schema) (changes : List SchemaChange)
    (curVer : Option String) (ts : String) (res : VersioningResult)
    (w : List WriteEvent) (hne : changes ≠ [])
    (h : applyVersioning s changes curVer ts = .ok (res, w)) :
    ∃ nv, res.new_version = some nv ∧
      w = [.history { s with version := some nv } nv ts,
           .current { s with version := some nv },
           .diffReport (resolveCurrentVersion s curVer) nv changes] ∧
      ({ s with version := some nv } : Schema).project = s.project ∧
      ({ s with version := some nv } : Schema).schemaTag = s.schemaTag ∧
      ({ s with version := some nv } : Schema).meta = s.meta ∧
      ({ s with version := some nv } : Schema).sheets = s.sheets := by
  simp only [applyVersioning, if_neg hne] at h
  cases hp : parseSemVer (resolveCurrentVersion s curVer) with
  | error e => rw [hp] at h; cases h
  | ok oldv =>
    rw [hp] at h
    injection h with h3
    rw [Prod.mk.injEq] at h3
    refine ⟨semVerStr (bumpVersion oldv (resultLevel changes)), ?_, ?_,
      rfl, rfl, rfl, rfl⟩
    · rw [← h3.1]
    · exact h3.2.symm

/-- Witness material for C10: a MINOR diff on a "1.0.0" schema writes exactly
the history, canonical and report artifacts carrying the 1.1.0-stamped
schema. -/
def demoVersioningSchema : Schema :=
  { project := some "ATS", version := some "1.0.0", sheets := [] }

def demoMinorChange : SchemaChange :=
  { change_type := .COLUMN_ADDED, level := .MINOR,
    path := "TestSheet.columns[Qty]", message := "Test minor change" }

def demoVersioningRes : VersioningResult :=
  { decision := .BUMP, old_version := some "1.0.0", new_version := some "1.1.0",
    diff_level := .MINOR, schema_path := some canonicalSchemaPath,
    history_path := some (historyFilePath "TS" "1.1.0"),
    report_path := some (diffReportPath "TS") }

def demoVersioningWrites : List WriteEvent :=
  [.history { demoVersioningSchema with version := some "1.1.0" } "1.1.0" "TS",
   .current { demoVersioningSchema with version := some "1.1.0" },
   .diffReport "1.0.0" "1.1.0" [demoMinorChange]]

theorem c10_only_version_replaced_witness :
    ∃ nv, demoVersioningRes.new_version = some nv ∧
      demoVersioningWrites =
        [.history { demoVersioningSchema with version := some nv } nv "TS",
         .current { demoVersioningSchema with version := some nv },
         .diffReport (resolveCurrentVersion demoVersioningSchema (some "1.0.0")) nv
           [demoMinorChange]] ∧
      ({ demoVersioningSchema with version := some nv } : Schema).project =
        demoVersioningSchema.project ∧
      ({ demoVersioningSchema with version := some nv } : Schema).schemaTag =
        demoVersioningSchema.schemaTag ∧
      ({ demoVersioningSchema with version := some nv } : Schema).meta =
        demoVersioningSchema.meta ∧
      ({ demoVersioningSchema with version := some nv } : Schema).sheets =
        demoVersioningSchema.sheets :=
  c10_only_version_replaced demoVersioningSchema [demoMinorChange] (some "1.0.0")
    "TS" demoVersioningRes demoVersioningWrites (by decide) (by decide)

/-! ## C9 -/

/-- C9: when two columns of the same sheet resolve to the same programmatic
key, the pipeline fails with a validation error, and the failure occurs
before any file is written: the write log is empty, so canonical schema,
history copy and reports are all untouched. -/
theorem c9_duplicate_key_aborts_before_writes (oldS : Option Schema)
    (new : Schema) (ts : String) (s : String) (sh : SheetDef) (i j : Nat)
    (hi : i < sh.columns.length) (hj : j < sh.columns.length)
    (hs : alookup new.sheets s = some sh) (hij : i ≠ j)
    (hdup : resolveKey (sh.columns.get ⟨i, hi⟩) =
      resolveKey (sh.columns.get ⟨j, hj⟩)) :
    (runPipeline oldS new ts).1 = [] ∧
    ∃ e, (runPipeline oldS new ts).2 = .error e := by
  have hmem : ∃ p ∈ new.sheets, ¬ (p.2.columns.map resolveKey).Nodup := by
    rw [alookup] at hs
    cases hf : new.sheets.find? (fun p => decide (p.1 = s)) with
    | none => rw [hf] at hs; cases hs
    | some q =>
      rw [hf] at hs
      have hq2 : q.2 = sh := by simpa using hs
      refine ⟨q, List.mem_of_find?_eq_some hf, ?_⟩
      rw [hq2]
      intro hnd
      have hi2 : i < (sh.columns.map resolveKey).length := by simpa using hi
      have hj2 : j < (sh.columns.map resolveKey).length := by simpa using hj
      have hget : (sh.columns.map resolveKey).get ⟨i, hi2⟩ =
          (sh.columns.map resolveKey).get ⟨j, hj2⟩ := by
        rw [List.get_map, List.get_map]
        exact hdup
      have hfin := (hnd.get_inj_iff).1 hget
      apply hij
      simpa using hfin
  have hfind : (new.sheets.find?
      (fun p => decide (¬ (p.2.columns.map resolveKey).Nodup))).isSome := by
    refine List.find?_isSome.2 ?_
    obtain ⟨p, hp, hnd⟩ := hmem
    exact ⟨p, hp, decide_eq_true hnd⟩
  obtain ⟨q, hq⟩ := Option.isSome_iff_exists.1 hfind
  have hval : validateSchema new =
      .error ("Duplicate programmatic key in sheet '" ++ q.1 ++ "'") := by
    rw [validateSchema, hq]
  refine ⟨?_, ⟨"Duplicate programmatic key in sheet '" ++ q.1 ++ "'", ?_⟩⟩
  · simp only [runPipeline, hval]
  · simp only [runPipeline, hval]

/-- Witness material for C9: the duplicate-key schema from
`test_validator_duplicate_python_key`. -/
def demoDupSheet : SheetDef :=
  { row_start := some 2,
    columns := [{ col := some "A", name := some "Ticker",
                  python_key := some "ticker", type := some "string" },
                { col := some "B", name := some "Ticker2",
                  python_key := some "ticker", type := some "string" }] }

def demoDupSchema : Schema :=
  { project := some "ATS", version := some "0.0.0",
    sheets := [("Sheet", demoDupSheet)] }

theorem c9_duplicate_key_aborts_before_writes_witness :
    (runPipeline none demoDupSchema "TS").1 = [] ∧
    ∃ e, (runPipeline none demoDupSchema "TS").2 = .error e :=
  c9_duplicate_key_aborts_before_writes none demoDupSchema "TS" "Sheet"
    demoDupSheet 0 1 (by decide) (by decide) (by decide) (by decide) (by decide)

/-! ## C7 -/

/-- The impact category a relative file path belongs to: the rule table of
`_category_to_files` assigns disjoint path shapes to the categories, so the
category can be read back off the path. -/
def fileCat : List String → Option ImpactCategory
  | ["src", "sheets", n] =>
    if List.isSuffixOf "_repository.py".data n.data then some .REPOSITORY
    else some .SHEETS_ADAPTER
  | ["src", "engine", "risk", _] => some .RISK
  | ["src", "engine", "strategy", _] => some .STRATEGY
  | ["src", "engine", _, _] => some .ENGINE
  | ["src", "reporting", _] => some .DASHBOARD
  | ["src", "core", _] => some .OTHER
  | _ => Option.none

theorem suffix_append_data (a suf : String) : suf.data <:+ (a ++ suf).data := by
  rw [String.data_append]
  exact ⟨a.data, rfl⟩

theorem isSuffixOf_append_data (a suf : String) :
    List.isSuffixOf suf.data ((a ++ suf).data) = true :=
  List.isSuffixOf_iff_suffix.2 (suffix_append_data a suf)

theorem not_repo_suffix_adapter (a : String) :
    List.isSuffixOf "_repository.py".data ((a ++ "_adapter.py").data) = false := by
  rw [Bool.eq_false_iff]
  intro h
  have hsuf := List.isSuffixOf_iff_suffix.1 h
  have hada : "_adapter.py".data <:+ (a ++ "_adapter.py").data :=
    suffix_append_data a "_adapter.py"
  have hshort : "_adapter.py".data <:+ "_repository.py".data :=
    List.suffix_of_suffix_length_le hada hsuf (by decide)
  exact absurd hshort (by decide)

/-- Every file path `_category_to_files` produces determines its category. -/
theorem fileCat_of_mem_categoryToFiles {s : String} {cat : ImpactCategory}
    {fp : List String} (h : fp ∈ categoryToFiles s cat) :
    fileCat fp = some cat := by
  cases cat
  case REPOSITORY =>
    simp only [categoryToFiles, reduceCtorEq, ite_true, ite_false, if_true,
      if_false, List.append_nil, List.nil_append] at h
    split_ifs at h <;> rw [List.mem_singleton.1 h]
    · decide
    · decide
    · decide
    · decide
    · show (if List.isSuffixOf "_repository.py".data
            ((lowerStr s ++ "_repository.py") : String).data then
          some ImpactCategory.REPOSITORY
        else some ImpactCategory.SHEETS_ADAPTER) = some ImpactCategory.REPOSITORY
      rw [if_pos (isSuffixOf_append_data (lowerStr s) "_repository.py")]
  case ENGINE =>
    simp only [categoryToFiles, reduceCtorEq, ite_true, ite_false, if_true,
      if_false, List.append_nil, List.nil_append] at h
    rcases List.mem_append.1 h with h | h
    · rcases List.mem_append.1 h with h | h
      · split at h
        · rw [List.mem_singleton.1 h]; decide
        · cases h
      · split at h
        · rw [List.mem_singleton.1 h]; decide
        · cases h
    · rw [List.mem_singleton.1 h]; decide
  case SHEETS_ADAPTER =>
    simp only [categoryToFiles, reduceCtorEq, ite_true, ite_false, if_true,
      if_false, List.append_nil, List.nil_append] at h
    rcases List.mem_cons.1 h with h | h
    · rw [h]; decide
    · rw [List.mem_singleton.1 h]
      show (if List.isSuffixOf "_repository.py".data
            ((lowerStr s ++ "_adapter.py") : String).data then
          some ImpactCategory.REPOSITORY
        else some ImpactCategory.SHEETS_ADAPTER) = some ImpactCategory.SHEETS_ADAPTER
      rw [not_repo_suffix_adapter (lowerStr s)]
      rfl
  case RISK =>
    simp only [categoryToFiles, reduceCtorEq, ite_true, ite_false, if_true,
      if_false, List.append_nil, List.nil_append] at h
    rcases List.mem_cons.1 h with h | h
    · rw [h]; decide
    · rw [List.mem_singleton.1 h]; decide
  case STRATEGY =>
    simp only [categoryToFiles, reduceCtorEq, ite_true, ite_false, if_true,
      if_false, List.append_nil, List.nil_append] at h
    rw [List.mem_singleton.1 h]; decide
  case DASHBOARD =>
    simp only [categoryToFiles, reduceCtorEq, ite_true, ite_false, if_true,
      if_false, List.append_nil, List.nil_append] at h
    rcases List.mem_cons.1 h with h | h
    · rw [h]; decide
    · rw [List.mem_singleton.1 h]; decide
  case OTHER =>
    simp only [categoryToFiles, reduceCtorEq, ite_true, ite_false, if_true,
      if_false, List.append_nil, List.nil_append] at h
    rw [List.mem_singleton.1 h]; decide

/-- A target is well-formed for `root`: its path is `root` plus a relative
path whose `fileCat` is its category. -/
def targetPred (root : List String) (t : ImpactTarget) : Prop :=
  ∃ rel, t.file_path = root ++ rel ∧ fileCat rel = some t.category

theorem targetPred_of_mem_infer {root : List String} {s : String}
    {cs : List SchemaChange} {t : ImpactTarget}
    (h : t ∈ inferTargetsForSheet root s cs) :
    targetPred root t ∧ t.related_changes = cs := by
  simp only [inferTargetsForSheet, List.mem_flatMap] at h
  obtain ⟨cat, _, hmap⟩ := h
  obtain ⟨fp, hfp, ht⟩ := List.mem_map.1 hmap
  rw [← ht]
  exact ⟨⟨fp, rfl, fileCat_of_mem_categoryToFiles hfp⟩, rfl⟩

theorem targetPred_unique_cat {root : List String} {t u : ImpactTarget}
    (ht : targetPred root t) (hu : targetPred root u)
    (hfp : t.file_path = u.file_path) : t.category = u.category := by
  obtain ⟨r1, he1, hc1⟩ := ht
  obtain ⟨r2, he2, hc2⟩ := hu
  have hr : r1 = r2 := List.append_cancel_left (by rw [← he1, ← he2, hfp])
  rw [hr, hc2] at hc1
  exact (Option.some.inj hc1).symm

/-- The consolidation map invariant: all entries well-formed, keys distinct. -/
def GoodMap (root : List String) (m : List ImpactTarget) : Prop :=
  (∀ t ∈ m, targetPred root t) ∧ (m.map (·.file_path)).Nodup

theorem goodMap_nil (root : List String) : GoodMap root [] :=
  ⟨fun t ht => absurd ht (List.not_mem_nil t), List.nodup_nil⟩

theorem consolidateStep_eq_append {m : List ImpactTarget} {u : ImpactTarget}
    (hf : m.find? (fun e => decide (e.file_path = u.file_path)) = Option.none) :
    consolidateStep m u = m ++ [u] := by
  simp only [consolidateStep, hf]

theorem consolidateStep_eq_merge {m : List ImpactTarget} {u ex : ImpactTarget}
    (hf : m.find? (fun e => decide (e.file_path = u.file_path)) = some ex)
    (hcat : ex.category = u.category) :
    consolidateStep m u = m.map (fun e =>
      if e.file_path = u.file_path then
        { ex with related_changes := ex.related_changes ++ u.related_changes }
      else e) := by
  simp only [consolidateStep, hf, if_pos hcat]

theorem consolidateStep_eq_overwrite {m : List ImpactTarget} {u ex : ImpactTarget}
    (hf : m.find? (fun e => decide (e.file_path = u.file_path)) = some ex)
    (hcat : ¬ ex.category = u.category) :
    consolidateStep m u = m.map (fun e =>
      if e.file_path = u.file_path then u else e) := by
  simp only [consolidateStep, hf, if_neg hcat]

theorem consolidateStep_keys_replace {m : List ImpactTarget} {u : ImpactTarget}
    (v : ImpactTarget) (hv : v.file_path = u.file_path) :
    (m.map (fun e => if e.file_path = u.file_path then v else e)).map (·.file_path)
      = m.map (·.file_path) := by
  rw [List.map_map]
  refine List.map_congr_left ?_
  intro e _
  by_cases he : e.file_path = u.file_path
  · simp [he, hv]
  · simp [he]

theorem goodMap_replace {root : List String} {m : List ImpactTarget}
    {u : ImpactTarget} (hg : GoodMap root m) (v : ImpactTarget)
    (hv : v.file_path = u.file_path) (hvp : targetPred root v) :
    GoodMap root (m.map (fun e => if e.file_path = u.file_path then v else e)) := by
  obtain ⟨hpred, hkeys⟩ := hg
  refine ⟨?_, ?_⟩
  · intro t ht
    obtain ⟨e, he, hte⟩ := List.mem_map.1 ht
    by_cases hefp : e.file_path = u.file_path
    · rw [if_pos hefp] at hte
      rw [← hte]
      exact hvp
    · rw [if_neg hefp] at hte
      rw [← hte]
      exact hpred e he
  · rw [consolidateStep_keys_replace v hv]
    exact hkeys

theorem consolidateStep_good {root : List String} {m : List ImpactTarget}
    {u : ImpactTarget} (hg : GoodMap root m) (hu : targetPred root u) :
    GoodMap root (consolidateStep m u) := by
  cases hf : m.find? (fun e => decide (e.file_path = u.file_path)) with
  | none =>
    rw [consolidateStep_eq_append hf]
    obtain ⟨hpred, hkeys⟩ := hg
    refine ⟨?_, ?_⟩
    · intro t ht
      rcases List.mem_append.1 ht with ht | ht
      · exact hpred t ht
      · rw [List.mem_singleton.1 ht]; exact hu
    · rw [List.map_append]
      refine List.nodup_append.2 ⟨hkeys, List.nodup_singleton _, ?_⟩
      intro x hx hx2
      rw [List.map_singleton, List.mem_singleton] at hx2
      obtain ⟨e, he, hefp⟩ := List.mem_map.1 hx
      have hnone := List.find?_eq_none.1 hf e he
      rw [hx2] at hefp
      exact hnone (decide_eq_true hefp)
  | some ex =>
    have hexfp : ex.file_path = u.file_path := by
      have := List.find?_some hf
      simpa using this
    have hexm : ex ∈ m := List.mem_of_find?_eq_some hf
    by_cases hcat : ex.category = u.category
    · rw [consolidateStep_eq_merge hf hcat]
      refine goodMap_replace hg _ hexfp ?_
      obtain ⟨r, hr1, hr2⟩ := hg.1 ex hexm
      exact ⟨r, hr1, hr2⟩
    · rw [consolidateStep_eq_overwrite hf hcat]
      exact goodMap_replace hg u rfl hu

theorem consolidateStep_persist {root : List String} {m : List ImpactTarget}
    {u t : ImpactTarget} (hg : GoodMap root m) (hu : targetPred root u)
    (ht : t ∈ m) :
    ∃ t2 ∈ consolidateStep m u, t2.file_path = t.file_path ∧
      t2.category = t.category ∧ t.related_changes ⊆ t2.related_changes := by
  obtain ⟨hpred, hkeys⟩ := hg
  cases hf : m.find? (fun e => decide (e.file_path = u.file_path)) with
  | none =>
    rw [consolidateStep_eq_append hf]
    exact ⟨t, List.mem_append.2 (Or.inl ht), rfl, rfl, List.Subset.refl _⟩
  | some ex =>
    have hexfp : ex.file_path = u.file_path := by
      have := List.find?_some hf
      simpa using this
    have hexm : ex ∈ m := List.mem_of_find?_eq_some hf
    by_cases htfp : t.file_path = u.file_path
    · have hte : t = ex := by
        have hinj := List.inj_on_of_nodup_map hkeys
        exact hinj ht hexm (by rw [htfp, hexfp])
      have hcat : ex.category = u.category :=
        targetPred_unique_cat (hpred ex hexm) hu hexfp
      rw [consolidateStep_eq_merge hf hcat]
      refine ⟨{ ex with related_changes := ex.related_changes ++ u.related_changes },
        ?_, ?_, ?_, ?_⟩
      · refine List.mem_map.2 ⟨ex, hexm, ?_⟩
        rw [if_pos hexfp]
      · rw [hte]
      · rw [hte]
      · rw [hte]
        exact List.subset_append_left _ _
    · by_cases hcat : ex.category = u.category
      · rw [consolidateStep_eq_merge hf hcat]
        refine ⟨t, ?_, rfl, rfl, List.Subset.refl _⟩
        refine List.mem_map.2 ⟨t, ht, ?_⟩
        rw [if_neg htfp]
      · rw [consolidateStep_eq_overwrite hf hcat]
        refine ⟨t, ?_, rfl, rfl, List.Subset.refl _⟩
        refine List.mem_map.2 ⟨t, ht, ?_⟩
        rw [if_neg htfp]

theorem consolidateStep_insert {root : List String} {m : List ImpactTarget}
    {u : ImpactTarget} (hg : GoodMap root m) (hu : targetPred root u) :
    ∃ t2 ∈ consolidateStep m u, t2.file_path = u.file_path ∧
      t2.category = u.category ∧ u.related_changes ⊆ t2.related_changes := by
  obtain ⟨hpred, hkeys⟩ := hg
  cases hf : m.find? (fun e => decide (e.file_path = u.file_path)) with
  | none =>
    rw [consolidateStep_eq_append hf]
    exact ⟨u, List.mem_append.2 (Or.inr (List.mem_singleton_self u)), rfl, rfl,
      List.Subset.refl _⟩
  | some ex =>
    have hexfp : ex.file_path = u.file_path := by
      have := List.find?_some hf
      simpa using this
    have hexm : ex ∈ m := List.mem_of_find?_eq_some hf
    have hcat : ex.category = u.category :=
      targetPred_unique_cat (hpred ex hexm) hu hexfp
    rw [consolidateStep_eq_merge hf hcat]
    refine ⟨{ ex with related_changes := ex.related_changes ++ u.related_changes },
      ?_, hexfp, hcat, List.subset_append_right _ _⟩
    refine List.mem_map.2 ⟨ex, hexm, ?_⟩
    rw [if_pos hexfp]

theorem foldl_step_good {root : List String} {ts : List ImpactTarget}
    {m : List ImpactTarget} (hg : GoodMap root m)
    (hts : ∀ u ∈ ts, targetPred root u) :
    GoodMap root (ts.foldl consolidateStep m) := by
  induction ts generalizing m with
  | nil => exact hg
  | cons u t ih =>
    exact ih (consolidateStep_good hg (hts u (List.mem_cons_self _ _)))
      (fun x hx => hts x (List.mem_cons_of_mem _ hx))

theorem foldl_step_persist {root : List String} {ts : List ImpactTarget}
    {m : List ImpactTarget} {t : ImpactTarget} (hg : GoodMap root m)
    (hts : ∀ u ∈ ts, targetPred root u) (ht : t ∈ m) :
    ∃ t2 ∈ ts.foldl consolidateStep m, t2.file_path = t.file_path ∧
      t2.category = t.category ∧ t.related_changes ⊆ t2.related_changes := by
  induction ts generalizing m t with
  | nil => exact ⟨t, ht, rfl, rfl, List.Subset.refl _⟩
  | cons u ts2 ih =>
    obtain ⟨t1, ht1, hfp1, hcat1, hsub1⟩ :=
      consolidateStep_persist hg (hts u (List.mem_cons_self _ _)) ht
    obtain ⟨t2, ht2, hfp2, hcat2, hsub2⟩ :=
      ih (consolidateStep_good hg (hts u (List.mem_cons_self _ _)))
        (fun x hx => hts x (List.mem_cons_of_mem _ hx)) ht1
    exact ⟨t2, ht2, hfp2.trans hfp1, hcat2.trans hcat1,
      List.Subset.trans hsub1 hsub2⟩

theorem foldl_step_insert {root : List String} {ts : List ImpactTarget}
    {m : List ImpactTarget} {u : ImpactTarget} (hg : GoodMap root m)
    (hts : ∀ x ∈ ts, targetPred root x) (hu : u ∈ ts) :
    ∃ t2 ∈ ts.foldl consolidateStep m, t2.file_path = u.file_path ∧
      t2.category = u.category ∧ u.related_changes ⊆ t2.related_changes := by
  induction ts generalizing m with
  | nil => cases hu
  | cons v ts2 ih =>
    rcases List.mem_cons.1 hu with hv | hv
    · subst hv
      obtain ⟨t1, ht1, hfp1, hcat1, hsub1⟩ :=
        consolidateStep_insert hg (hts u (List.mem_cons_self _ _))
      obtain ⟨t2, ht2, hfp2, hcat2, hsub2⟩ :=
        foldl_step_persist
          (consolidateStep_good hg (hts u (List.mem_cons_self _ _)))
          (fun x hx => hts x (List.mem_cons_of_mem _ hx)) ht1
      exact ⟨t2, ht2, hfp2.trans hfp1, hcat2.trans hcat1,
        List.Subset.trans hsub1 hsub2⟩
    · exact ih (consolidateStep_good hg (hts v (List.mem_cons_self _ _)))
        (fun x hx => hts x (List.mem_cons_of_mem _ hx)) hv

theorem groupsFold_good {root : List String}
    (gs : List (String × List SchemaChange)) {m : List ImpactTarget}
    (hg : GoodMap root m) :
    GoodMap root (gs.foldl
      (fun m g => (inferTargetsForSheet root g.1 g.2).foldl consolidateStep m) m) := by
  induction gs generalizing m with
  | nil => exact hg
  | cons g gs2 ih =>
    exact ih (foldl_step_good hg (fun u hu => (targetPred_of_mem_infer hu).1))

theorem groupsFold_persist {root : List String}
    (gs : List (String × List SchemaChange)) {m : List ImpactTarget}
    {t : ImpactTarget} (hg : GoodMap root m) (ht : t ∈ m) :
    ∃ t2 ∈ gs.foldl
      (fun m g => (inferTargetsForSheet root g.1 g.2).foldl consolidateStep m) m,
      t2.file_path = t.file_path ∧ t2.category = t.category ∧
        t.related_changes ⊆ t2.related_changes := by
  induction gs generalizing m t with
  | nil => exact ⟨t, ht, rfl, rfl, List.Subset.refl _⟩
  | cons g gs2 ih =>
    obtain ⟨t1, ht1, hfp1, hcat1, hsub1⟩ :=
      foldl_step_persist hg (fun u hu => (targetPred_of_mem_infer hu).1) ht
    obtain ⟨t2, ht2, hfp2, hcat2, hsub2⟩ :=
      ih (foldl_step_good hg (fun u hu => (targetPred_of_mem_infer hu).1)) ht1
    exact ⟨t2, ht2, hfp2.trans hfp1, hcat2.trans hcat1,
      List.Subset.trans hsub1 hsub2⟩

/-- C7: the ImpactReport `analyze` produces has no two targets with the same
(component, category) pair (in fact no two targets with the same component
path at all), and every (component, category) pair any sheet's changes imply
is represented by a target whose related-changes list carries all of that
sheet's justifying changes — changes from several sheets implying the same
pair are merged into one target. -/
theorem c7_impact_targets_dedup_and_merge (root : List String)
    (changes : List SchemaChange) :
    ((analyze root changes).targets).Pairwise
      (fun t1 t2 => ¬ (t1.file_path = t2.file_path ∧ t1.category = t2.category)) ∧
    ∀ g ∈ groupBySheet changes, ∀ t ∈ inferTargetsForSheet root g.1 g.2,
      ∃ u ∈ (analyze root changes).targets,
        u.file_path = t.file_path ∧ u.category = t.category ∧
        ∀ c ∈ g.2, c ∈ u.related_changes := by
  have htargets : (analyze root changes).targets = (groupBySheet changes).foldl
      (fun m g => (inferTargetsForSheet root g.1 g.2).foldl consolidateStep m) [] := by
    by_cases h : changes = []
    · subst h; rfl
    · simp [analyze, h, analyzeTargets]
  have hgood : GoodMap root ((groupBySheet changes).foldl
      (fun m g => (inferTargetsForSheet root g.1 g.2).foldl consolidateStep m) []) :=
    groupsFold_good _ (goodMap_nil root)
  constructor
  · rw [htargets]
    have hnd := hgood.2
    have hpw := List.pairwise_map.1 hnd
    exact hpw.imp (fun h hand => h hand.1)
  · intro g hgmem t ht
    rw [htargets]
    obtain ⟨l1, l2, hgs⟩ := List.append_of_mem hgmem
    rw [hgs, List.foldl_append, List.foldl_cons]
    have hm1 : GoodMap root (l1.foldl
        (fun m g => (inferTargetsForSheet root g.1 g.2).foldl consolidateStep m) []) :=
      groupsFold_good l1 (goodMap_nil root)
    have hall : ∀ u ∈ inferTargetsForSheet root g.1 g.2, targetPred root u :=
      fun u hu => (targetPred_of_mem_infer hu).1
    obtain ⟨t1, ht1, hfp1, hcat1, hsub1⟩ := foldl_step_insert hm1 hall ht
    obtain ⟨t2, ht2, hfp2, hcat2, hsub2⟩ :=
      groupsFold_persist l2 (foldl_step_good hm1 hall) ht1
    refine ⟨t2, ht2, hfp2.trans hfp1, hcat2.trans hcat1, ?_⟩
    have hrel : t.related_changes = g.2 := (targetPred_of_mem_infer ht).2
    intro c hc
    exact hsub2 (hsub1 (hrel ▸ hc))

/-- Witness material for C7: the spec's impact-grouping scenario, two changes
on sheet "Position". -/
def demoImpactChanges : List SchemaChange :=
  [{ change_type := .COLUMN_TYPE_CHANGED, level := .MAJOR,
     path := "Position.columns[Qty].type", message := "Qty type changed" },
   { change_type := .ROW_START_CHANGED, level := .MAJOR,
     path := "Position.row_start", message := "Row start changed" }]

def demoImpactTarget : ImpactTarget :=
  { category := .REPOSITORY,
    file_path := ["src", "sheets", "position_repository.py"],
    reason := buildReason "Position" .REPOSITORY demoImpactChanges,
    related_changes := demoImpactChanges }

theorem c7_impact_targets_dedup_and_merge_witness :
    ∃ u ∈ (analyze [] demoImpactChanges).targets,
      u.file_path = demoImpactTarget.file_path ∧
      u.category = demoImpactTarget.category ∧
      ∀ c ∈ demoImpactChanges, c ∈ u.related_changes :=
  (c7_impact_targets_dedup_and_merge [] demoImpactChanges).2
    ("Position", demoImpactChanges) (by decide) demoImpactTarget (by decide)

end ATS
